import Mathlib

/-!
Verification of the multi-tenant file-repository backend (SanvedN/file-system).

This development shallowly embeds the tenant-scoped file-ingestion engine:

* `sanitizeFilename` embeds `sanitize_filename` (src/file_service/utils.py);
* `ZipNode`, `validateZipDepth` embed `_validate_zip_depth`
  (src/file_service/services/file_service.py);
* `validateAgainstConfig` embeds `_validate_against_config`;
* `validateContentVsExtension` embeds `_validate_file_content_vs_extension`;
* `checkConcurrentUpload` embeds `_check_concurrent_upload`;
* `uploadFile` embeds the v2 streaming `upload_file` coordinator;
* `legacyUploadFile` embeds the quota-checking portion of the legacy
  `FileService.upload_file` (src/file_service/services.py);
* `updateMutable` embeds `FileCRUD.update_mutable` (src/file_service/crud/file.py).

Strings that live in filenames are modelled as `List Char`; extensions and
MIME types are Lean `String`s.
-/

namespace FileSystem

/-! ## Filename sanitizer (`sanitize_filename`, utils.py lines 54-79) -/

/-- `name.replace("\x00", "")`: drop every NUL character. -/
def removeNulls (l : List Char) : List Char :=
  l.filter (fun c => c ≠ Char.ofNat 0)

/-- `name.replace("..", "")`: remove non-overlapping occurrences of `".."`,
scanning left to right, exactly as Python `str.replace` does. -/
def removeDotDot : List Char → List Char
  | [] => []
  | [c] => [c]
  | a :: b :: rest =>
    if a = '.' ∧ b = '.' then removeDotDot rest
    else a :: removeDotDot (b :: rest)

/-- `name.replace("/", "_").replace("\\", "_")`. -/
def mapSeparators (l : List Char) : List Char :=
  l.map (fun c => if c = '/' ∨ c = '\\' then '_' else c)

/-- `os.path.basename`: the part after the last `'/'` (POSIX). -/
def basenameChars (l : List Char) : List Char :=
  l.foldl (fun acc c => if c = '/' then [] else acc ++ [c]) []

/-- One decimal digit as a character. -/
def digitChar (d : Nat) : Char := Char.ofNat (48 + d)

/-- Decimal digits of a natural number; the first argument is recursion
fuel, always instantiated so that it cannot run out (a number `n ≥ 1` has at
most `n` digits). -/
def natDigitsAux : Nat → Nat → List Char → List Char
  | 0, _, acc => acc
  | fuel + 1, n, acc =>
    if n = 0 then acc else natDigitsAux fuel (n / 10) (digitChar (n % 10) :: acc)

/-- Decimal representation of a natural number, as Python `str(int(...))`. -/
def natDigits (n : Nat) : List Char :=
  if n = 0 then ['0'] else natDigitsAux n n []

/-- `f"file_{int(time.time())}"`: the timestamp-derived fallback name. -/
def timestampName (ts : Nat) : List Char :=
  ('f' :: 'i' :: 'l' :: 'e' :: '_' :: []) ++ natDigits ts

/-- The fixed name returned for an empty input, `"unnamed_file"`. -/
def unnamedFile : List Char := "unnamed_file".data

/-- The cleaning part of `sanitize_filename`: strip NULs, remove `".."`,
replace separators, take the basename, cap the length at 200. -/
def cleanedName (name : List Char) : List Char :=
  let n4 := basenameChars (mapSeparators (removeDotDot (removeNulls name)))
  if n4.length > 200 then n4.take 200 else n4

/-- Embedding of `sanitize_filename(name)`; `ts` is the value of
`int(time.time())` observed when the fallback branch runs. -/
def sanitizeFilename (name : List Char) (ts : Nat) : List Char :=
  if name = [] then unnamedFile
  else
    let n5 := cleanedName name
    if n5 = [] ∨ n5 = ['.'] ∨ n5 = ['.', '.'] then timestampName ts
    else n5

/-! ## Extension normalization (`_normalize_extension`, `os.path.splitext`) -/

/-- `os.path.splitext(p)[1]` for a path without separators: the suffix from
the last dot, unless every character before that dot is itself a dot
(leading-dot filenames such as `".bashrc"` have no extension). -/
def splitextExt (l : List Char) : List Char :=
  let revTail := l.reverse.takeWhile (fun c => c ≠ '.')
  if revTail.length = l.length then []
  else
    let candidate := '.' :: revTail.reverse
    let before := l.take (l.length - candidate.length)
    if before.all (fun c => c = '.') then [] else candidate

/-- `_normalize_extension`: `os.path.splitext(filename)[1].lower()`. -/
def normalizeExtension (l : List Char) : String :=
  String.mk ((splitextExt l).map Char.toLower)

/-! ## Zip Depth Inspector (`_validate_zip_depth`, file_service.py 111-168)

A `ZipNode` describes what happens when a stored byte string is opened with
`zipfile.ZipFile`: it is a readable archive with a list of entries, or it
raises `BadZipFile`, or inspecting it raises some other unexpected error.
Each archive entry is a pair of its name and the node describing its bytes. -/

mutual

inductive ZipNode : Type where
  | arch (entries : ZipEntries) : ZipNode
  | malformed : ZipNode
  | ioError : ZipNode

inductive ZipEntries : Type where
  | nil : ZipEntries
  | cons (name : String) (node : ZipNode) (rest : ZipEntries) : ZipEntries

end

/-- `info.filename.lower().endswith('.zip')`. -/
def isZipName (name : String) : Bool :=
  List.isSuffixOf ".zip".data (name.data.map Char.toLower)

/-- Detail string of the `max_zip_depth = 0` rejection. -/
def nestedZipMsg : String :=
  "ZIP files with nested ZIPs are not allowed (max_zip_depth=0)"

/-- Detail string of the `BadZipFile` rejection. -/
def invalidZipMsg : String := "Invalid ZIP file format"

mutual

/-- Embedding of `_validate_zip_depth(file_path, max_depth)`.  `.ok ()` is a
normal return; `.error d` is a raised `HTTPException(400, d)`.  A negative
`max_depth` returns before the archive is even opened; a `BadZipFile` maps to
`invalidZipMsg`; any other unexpected error is logged and swallowed
(`.ok ()`, the fail-open branch). -/
def validateZipDepth (node : ZipNode) (maxDepth : Int) : Except String Unit :=
  if maxDepth < 0 then .ok ()
  else
    match node with
    | .malformed => .error invalidZipMsg
    | .ioError => .ok ()
    | .arch entries => validateZipEntries entries maxDepth
termination_by structural node

/-- The `for info in zip_file.infolist()` loop of `_validate_zip_depth`. -/
def validateZipEntries (entries : ZipEntries) (maxDepth : Int) :
    Except String Unit :=
  match entries with
  | .nil => .ok ()
  | .cons name node rest =>
    if isZipName name then
      if maxDepth = 0 then .error nestedZipMsg
      else
        match validateZipDepth node (maxDepth - 1) with
        | .ok () => validateZipEntries rest maxDepth
        | .error e => .error e
    else validateZipEntries rest maxDepth
termination_by structural entries

end

mutual

/-- Nested-archive depth of a node: an archive with no zip-named entries has
depth 0; a zip-named entry contributes one more than its own depth. -/
def depthNode : ZipNode → Nat
  | .arch entries => depthEntries entries
  | .malformed => 0
  | .ioError => 0
termination_by structural n => n

/-- Maximal nested-archive depth contributed by a list of entries. -/
def depthEntries : ZipEntries → Nat
  | .nil => 0
  | .cons name node rest =>
    max (if isZipName name then depthNode node + 1 else 0) (depthEntries rest)
termination_by structural e => e

end

mutual

/-- A node is a well-formed archive: it is readable, and each of its entries
whose name denotes a nested archive is itself a well-formed archive. -/
def wellFormedNode : ZipNode → Bool
  | .arch entries => wellFormedEntries entries
  | .malformed => false
  | .ioError => false
termination_by structural n => n

/-- Well-formedness of an entry list. -/
def wellFormedEntries : ZipEntries → Bool
  | .nil => true
  | .cons name node rest =>
    (!isZipName name || wellFormedNode node) && wellFormedEntries rest
termination_by structural e => e

end

/-- Whether some entry name denotes a nested archive. -/
def hasZipEntry : ZipEntries → Bool
  | .nil => false
  | .cons name _ rest => isZipName name || hasZipEntry rest

mutual

/-- Whether a malformed (BadZipFile-raising) byte string occurs anywhere in
the tree. -/
def hasMalformedNode : ZipNode → Bool
  | .arch entries => hasMalformedEntries entries
  | .malformed => true
  | .ioError => false
termination_by structural n => n

/-- Whether some entry subtree contains a malformed byte string. -/
def hasMalformedEntries : ZipEntries → Bool
  | .nil => false
  | .cons _ node rest => hasMalformedNode node || hasMalformedEntries rest
termination_by structural e => e

end

/-! ## Content sniffing (`_validate_file_content_vs_extension`, 63-108) -/

/-- Outcome of matching the first bytes of the stored file against the
magic-byte table of `_validate_file_content_vs_extension`: one of the
recognized signatures, no recognized signature (`unknown`), or an exception
while opening/reading the file (`readError`). -/
inductive SniffKind : Type where
  | pdf | png | jpeg | gif | webp | docx | xlsx | pptx
  | unknown
  | readError
deriving DecidableEq, Repr

/-- The `actual_mime` computed from the magic-byte table, falling back to the
detected MIME when no signature matches. -/
def resolveSniff (sniff : SniffKind) (detectedMime : String) : String :=
  match sniff with
  | .pdf => "application/pdf"
  | .png => "image/png"
  | .jpeg => "image/jpeg"
  | .gif => "image/gif"
  | .webp => "image/webp"
  | .docx => "application/vnd.openxmlformats-officedocument.wordprocessingml.document"
  | .xlsx => "application/vnd.openxmlformats-officedocument.spreadsheetml.sheet"
  | .pptx => "application/vnd.openxmlformats-officedocument.presentationml.presentation"
  | .unknown => detectedMime
  | .readError => detectedMime

/-- Python `s.startswith(p)`. -/
def startsWithStr (s p : String) : Bool :=
  List.isPrefixOf p.data s.data

/-- Embedding of `_validate_file_content_vs_extension(file_path, expected_ext,
detected_mime)`.  On `readError` the `except` clause logs a warning and
returns the detected MIME without running the PDF cross-checks. -/
def validateContentVsExtension (sniff : SniffKind) (expectedExt detectedMime : String) :
    Except String String :=
  match sniff with
  | .readError => .ok detectedMime
  | _ =>
    let actualMime := resolveSniff sniff detectedMime
    if expectedExt = ".pdf" ∧ ¬ startsWithStr actualMime "application/pdf" then
      .error ("File extension .pdf does not match actual file type (" ++ actualMime ++ ")")
    else if expectedExt ≠ ".pdf" ∧ startsWithStr actualMime "application/pdf" then
      .error ("File appears to be PDF but has extension " ++ expectedExt)
    else .ok actualMime

/-! ## Tenant configuration and the Validation Engine
(`_validate_against_config`, 171-228) -/

/-- The keys of the tenant `configuration` JSON map that the ingestion engine
reads, together with the quota fields of the legacy tenant row
(`storage_quota_bytes`, `file_count_limit`); `none` models an absent/null
key. -/
structure TenantConfig where
  maxFileSizeKbytes : Option Int := none
  allowedExtensions : List String := []
  forbiddenExtensions : List String := []
  allowedMimeTypes : List String := []
  forbiddenMimeTypes : List String := []
  maxZipDepth : Option Int := none
  storageQuotaBytes : Option Int := none
  fileCountLimit : Option Int := none
deriving Repr

/-- `s.lower()` on a Lean string. -/
def lowerStr (s : String) : String := String.mk (s.data.map Char.toLower)

/-- The `max_file_size_kbytes` check of `_validate_against_config`: enforced
only when the configured value is a positive integer. -/
def sizeCheck (maxKbCfg : Option Int) (sizeBytes : Nat) : Except String Unit :=
  match maxKbCfg with
  | some maxKb =>
    if maxKb > 0 ∧ ((sizeBytes : Int) + 1023) / 1024 > maxKb then
      .error ("File exceeds maximum allowed size of " ++ toString maxKb ++ "KB")
    else .ok ()
  | none => .ok ()

/-- Embedding of `_validate_against_config`.  `zipAt` is the parse of the
bytes currently at `file_path` (`none` when `file_path` is falsy).  `.ok ()`
is a normal return; `.error d` a raised `HTTPException(400, d)`; the checks
run in the source's order, stopping at the first failure. -/
def validateAgainstConfig (cfg : TenantConfig) (ext mime : String)
    (sizeBytes : Nat) (zipAt : Option ZipNode) : Except String Unit :=
  if sizeBytes = 0 then .error "Empty files are not allowed"
  else
    match sizeCheck cfg.maxFileSizeKbytes sizeBytes with
    | .error e => .error e
    | .ok () =>
      if ext ∈ cfg.forbiddenExtensions.map lowerStr then
        .error "File extension is forbidden"
      else if cfg.allowedExtensions.map lowerStr ≠ [] ∧
          ext ∉ cfg.allowedExtensions.map lowerStr then
        .error "File extension not allowed"
      else if cfg.allowedExtensions.map lowerStr = [] then
        .error "File extension not allowed"
      else if lowerStr mime ∈ cfg.forbiddenMimeTypes.map lowerStr then
        .error "MIME type is forbidden"
      else if cfg.allowedMimeTypes.map lowerStr ≠ [] ∧
          lowerStr mime ∉ cfg.allowedMimeTypes.map lowerStr then
        .error "MIME type not allowed"
      else if cfg.allowedMimeTypes.map lowerStr = [] then
        .error "MIME type not allowed"
      else
        match zipAt with
        | some node =>
          if ext = ".zip" then validateZipDepth node (cfg.maxZipDepth.getD 0)
          else .ok ()
        | none => .ok ()

/-! ## Upload lock (`_check_concurrent_upload`, 231-253) and rate limiter -/

/-- State of the shared Redis cache seen by one ingest call: the tenant's
current upload-rate counter value and whether the `SET ... NX EX 30` on the
lock key would succeed (no other holder). -/
structure RedisEnv where
  rateCount : Nat
  lockFree : Bool
deriving Repr, DecidableEq

/-- Terminal errors of the v2 ingest call: `HTTPException` with status 429,
409 or 400 respectively. -/
inductive UploadError : Type where
  | rateLimited : UploadError
  | conflict : UploadError
  | validation (detail : String) : UploadError
deriving DecidableEq, Repr

/-- `check_upload_rate_limit` / `check_rate_limit` with `max_requests = 50`:
raises 429 when the current counter already reached the limit; with no cache
available the request is allowed. -/
def checkUploadRateLimit (redis : Option RedisEnv) : Except UploadError Unit :=
  match redis with
  | none => .ok ()
  | some r => if r.rateCount ≥ 50 then .error .rateLimited else .ok ()

/-- The `try:` body of `_check_concurrent_upload`: the atomic set-if-absent
either acquires the lock and returns its key, or raises the 409 Conflict. -/
def checkConcurrentUploadBody (lockFree : Bool) (key : String) :
    Except UploadError (Option String) :=
  if lockFree then .ok (some key) else .error .conflict

/-- Embedding of `_check_concurrent_upload(redis, tenant_id, filename)`:
without a cache it returns `None`; otherwise it runs the body under
`except Exception: ... return None`, which also catches the body's own
`HTTPException(409)`. -/
def checkConcurrentUpload (redis : Option RedisEnv) (key : String) :
    Except UploadError (Option String) :=
  match redis with
  | none => .ok none
  | some r =>
    match checkConcurrentUploadBody r.lockFree key with
    | .ok k => .ok k
    | .error _ => .ok none

/-! ## The v2 FileRecord and the streaming upload coordinator
(`upload_file`, services/file_service.py 265-375) -/

/-- The persisted `cf_filerepo_file` row, with the fields `FileCRUD.create`
receives; JSON metadata is kept opaque. -/
structure FileRecord where
  tenantId : Nat
  fileId : String
  fileName : String
  filePath : String
  mediaType : String
  fileSizeBytes : Nat
  tag : Option String
  metadata : Option String
deriving DecidableEq, Repr

/-- `_detect_mime(filename, fallback)`: the declared content type when
present, else the `mimetypes` guess, else `application/octet-stream`. -/
def detectMime (contentType : Option String) (guessedMime : Option String) : String :=
  match contentType with
  | some c => c
  | none => guessedMime.getD "application/octet-stream"

/-- `file.read(1024 * 1024)` chunk size. -/
def chunkSize : Nat := 1024 * 1024

/-- The chunk-splitting loop; the first argument is recursion fuel, always
instantiated so that it cannot run out (a stream of `n` bytes yields at most
`n` non-empty chunks). -/
def chunkSizesAux : Nat → Nat → List Nat
  | 0, _ => []
  | fuel + 1, n =>
    if n = 0 then []
    else if n ≤ chunkSize then [n]
    else chunkSize :: chunkSizesAux fuel (n - chunkSize)

/-- Sizes of the successive non-empty chunks `await file.read(1024*1024)`
yields for a stream of `n` bytes. -/
def chunkSizes (n : Nat) : List Nat :=
  chunkSizesAux n n

/-- The `while True` write loop of `upload_file`: after each chunk the
running byte total is validated against the configuration, with the partial
file at `dst_path` visible to the zip inspector.  Returns the final size or
the first incremental validation failure. -/
def uploadLoop (cfg : TenantConfig) (ext mime : String) (partialParse : Nat → ZipNode) :
    List Nat → Nat → Except String Nat
  | [], acc => .ok acc
  | c :: rest, acc =>
    let acc' := acc + c
    match validateAgainstConfig cfg ext mime acc' (some (partialParse acc')) with
    | .ok () => uploadLoop cfg ext mime partialParse rest acc'
    | .error e => .error e

/-- Decidable equality for `Except` results. -/
instance {e a : Type} [DecidableEq e] [DecidableEq a] : DecidableEq (Except e a) := fun x y =>
  match x, y with
  | .error u, .error v =>
    if h : u = v then isTrue (congrArg Except.error h)
    else isFalse (fun hh => h (Except.error.inj hh))
  | .ok u, .ok v =>
    if h : u = v then isTrue (congrArg Except.ok h)
    else isFalse (fun hh => h (Except.ok.inj hh))
  | .error _, .ok _ => isFalse (fun hh => Except.noConfusion hh)
  | .ok _, .error _ => isFalse (fun hh => Except.noConfusion hh)

/-- Observable outcome of one v2 ingest call: the returned value or raised
error, the record persisted by `FileCRUD.create` (if any), and the bytes left
at `dst_path` after the call returns. -/
structure UploadOutcome where
  result : Except UploadError FileRecord
  persisted : Option FileRecord
  diskBytes : Option Nat
deriving DecidableEq, Repr

/-- Per-call environment of the v2 ingest: cache state, `time.time()` for the
sanitizer fallback, the generated file id, the `mimetypes` guess for the safe
name, the magic-byte classification of the full content, and the zip parse of
the first `k` bytes of the content for every `k`. -/
structure UploadEnv where
  redis : Option RedisEnv
  ts : Nat
  fileId : String
  guessedMime : Option String
  sniff : SniffKind
  partialParse : Nat → ZipNode

/-- `sanitize_filename(file.filename or "file")`. -/
def derivedSafeName (filename : List Char) (ts : Nat) : List Char :=
  sanitizeFilename (if filename = [] then "file".data else filename) ts

/-- `_normalize_extension(safe_name)`. -/
def derivedExt (filename : List Char) (ts : Nat) : String :=
  normalizeExtension (derivedSafeName filename ts)

/-- The tail of the v2 `upload_file` once the stream has been fully written:
final validation of the completed file, content-vs-extension reconciliation
(possibly correcting the stored media type), then `FileCRUD.create`. -/
def uploadFinish (env : UploadEnv) (cfg : TenantConfig) (tenantId : Nat)
    (safeName ext mediaType : String) (tag metadata : Option String)
    (size : Nat) : UploadOutcome :=
  match validateAgainstConfig cfg ext mediaType size
      (some (env.partialParse size)) with
  | .error e => ⟨.error (.validation e), none, none⟩
  | .ok () =>
    match validateContentVsExtension env.sniff ext mediaType with
    | .error e => ⟨.error (.validation e), none, none⟩
    | .ok actualMime =>
      let record : FileRecord :=
        { tenantId := tenantId
          fileId := env.fileId
          fileName := safeName
          filePath := "dst"
          mediaType := actualMime
          fileSizeBytes := size
          tag := tag
          metadata := metadata }
      ⟨.ok record, some record, some size⟩

/-- The body of the v2 `upload_file` after the rate-limit and lock steps:
filename sanitization, chunked write with incremental validation (failures
delete the partial file), then `uploadFinish`.  The `except` block deletes
`dst_path` on every error path, and the lock release in `finally` has no
further observable effect. -/
def uploadPipeline (env : UploadEnv) (cfg : TenantConfig) (tenantId : Nat)
    (filename : List Char) (contentType : Option String) (contentLen : Nat)
    (tag metadata : Option String) : UploadOutcome :=
  match uploadLoop cfg (derivedExt filename env.ts)
      (detectMime contentType env.guessedMime) env.partialParse
      (chunkSizes contentLen) 0 with
  | .error e => ⟨.error (.validation e), none, none⟩
  | .ok size =>
    uploadFinish env cfg tenantId (String.mk (derivedSafeName filename env.ts))
      (derivedExt filename env.ts) (detectMime contentType env.guessedMime)
      tag metadata size

/-- Embedding of the v2 `upload_file` coordinator: upload rate limit and
concurrent-upload check, then the streaming pipeline. -/
def uploadFile (env : UploadEnv) (cfg : TenantConfig) (tenantId : Nat)
    (filename : List Char) (contentType : Option String) (contentLen : Nat)
    (tag metadata : Option String) : UploadOutcome :=
  match checkUploadRateLimit env.redis with
  | .error e => ⟨.error e, none, none⟩
  | .ok () =>
    match checkConcurrentUpload env.redis "upload-lock-key" with
    | .error e => ⟨.error e, none, none⟩
    | .ok _lock =>
      uploadPipeline env cfg tenantId filename contentType contentLen tag metadata

/-! ## Legacy ingest path (`FileService.upload_file`, services.py 174-306)

Only the admission-control portion is relevant here; the downstream
validator (`AsyncFileValidator`, a shared collaborator) is abstracted to a
boolean verdict. -/

/-- The legacy `tenants` row fields that `FileService.upload_file` reads. -/
structure LegacyTenant where
  isActive : Bool
  storageQuotaBytes : Option Int
  fileCountLimit : Option Int
deriving Repr, DecidableEq

/-- `TenantCRUD.get_stats` aggregation: count and summed sizes over the
tenant's rows with `is_deleted == False`.  Each element of `files` is
`(file_size, is_deleted)`. -/
def aggregateStats (files : List (Nat × Bool)) : Nat × Nat :=
  ((files.filter (fun f => ¬ f.2)).length,
   ((files.filter (fun f => ¬ f.2)).map (fun f => f.1)).sum)

/-- `check_tenant_quotas`'s `within_file_count_quota`: false only when the
limit is set (truthy, i.e. non-null and non-zero) and the current count
strictly exceeds it. -/
def withinFileCountQuota (t : LegacyTenant) (fileCount : Nat) : Bool :=
  match t.fileCountLimit with
  | some l => ¬ (l ≠ 0 ∧ (fileCount : Int) > l)
  | none => true

/-- The legacy storage-quota check: false only when the quota is set
(truthy) and the current bytes plus the new upload strictly exceed it. -/
def storageQuotaOk (quotaCfg : Option Int) (totalBytes newSize : Nat) : Bool :=
  match quotaCfg with
  | some q => ¬ (q ≠ 0 ∧ (totalBytes : Int) + newSize > q)
  | none => true

/-- Terminal outcomes of the legacy upload: `HTTPException` status codes. -/
inductive LegacyError : Type where
  | inactive : LegacyError
  | quotaFileCount : LegacyError
  | quotaStorage : LegacyError
  | validationFailed : LegacyError
deriving DecidableEq, Repr

/-- Observable outcome of a legacy ingest call: result, whether a row was
persisted, and the bytes written to the destination storage path. -/
structure LegacyOutcome where
  result : Except LegacyError Unit
  persisted : Bool
  destBytes : Option Nat
deriving DecidableEq, Repr

/-- Embedding of the legacy `FileService.upload_file` admission flow:
active-tenant check, file-count quota via `check_tenant_quotas`, read of the
content, storage-quota check (skipped when the quota is null or zero), then
validation and persistence.  `validatorOk` abstracts the
`AsyncFileValidator.validate_file` verdict. -/
def legacyUploadFile (t : LegacyTenant) (files : List (Nat × Bool))
    (fileSize : Nat) (validatorOk : Bool) : LegacyOutcome :=
  if ¬ t.isActive then ⟨.error .inactive, false, none⟩
  else if ¬ withinFileCountQuota t (aggregateStats files).1 then
    ⟨.error .quotaFileCount, false, none⟩
  else if ¬ storageQuotaOk t.storageQuotaBytes (aggregateStats files).2 fileSize then
    ⟨.error .quotaStorage, false, none⟩
  else if ¬ validatorOk then ⟨.error .validationFailed, false, none⟩
  else ⟨.ok (), true, some fileSize⟩

/-! ## Metadata update (`FileCRUD.update_mutable`, crud/file.py 53-75, and
`update_file`, services/file_service.py 435-457) -/

/-- `FileCRUD.get_by_id`: first row matching `(tenant_id, file_id)`. -/
def getById (store : List FileRecord) (tenantId : Nat) (fileId : String) :
    Option FileRecord :=
  store.find? (fun r => r.tenantId = tenantId ∧ r.fileId = fileId)

/-- The field assignments of `update_mutable`: a `None` argument leaves the
corresponding column untouched. -/
def applyMutable (r : FileRecord) (fileName : Option String)
    (tag : Option String) (metadata : Option String) : FileRecord :=
  { r with
    fileName := fileName.getD r.fileName
    tag := match tag with | some t => some t | none => r.tag
    metadata := match metadata with | some m => some m | none => r.metadata }

/-- Embedding of `FileCRUD.update_mutable`: find the row, apply the
conditional assignments, commit.  Returns the updated row (or `none`) and the
new table state. -/
def updateMutable (store : List FileRecord) (tenantId : Nat) (fileId : String)
    (fileName tag metadata : Option String) :
    Option FileRecord × List FileRecord :=
  match getById store tenantId fileId with
  | none => (none, store)
  | some r =>
    let r' := applyMutable r fileName tag metadata
    (some r',
     store.map (fun x =>
       if x.tenantId = tenantId ∧ x.fileId = fileId then
         applyMutable x fileName tag metadata
       else x))

/-- Embedding of the service-level `update_file`: `update_mutable` is called
with only `tag` and `file_metadata` (never `file_name`); a missing row is a
404. -/
def serviceUpdateFile (store : List FileRecord) (tenantId : Nat)
    (fileId : String) (tag metadata : Option String) :
    Except String FileRecord × List FileRecord :=
  match updateMutable store tenantId fileId none tag metadata with
  | (none, s) => (.error "File not found", s)
  | (some r, s) => (.ok r, s)

/-! ## Lemmas about the Zip Depth Inspector -/

theorem validateZipDepth_of_neg (node : ZipNode) (m : Int) (hm : m < 0) :
    validateZipDepth node m = .ok () := by
  rw [validateZipDepth.eq_def]
  simp [hm]

theorem validateZipDepth_malformed (m : Int) (hm : ¬ m < 0) :
    validateZipDepth .malformed m = .error invalidZipMsg := by
  rw [validateZipDepth.eq_def]
  simp [hm]

theorem validateZipDepth_ioError (m : Int) :
    validateZipDepth .ioError m = .ok () := by
  rw [validateZipDepth.eq_def]
  by_cases hm : m < 0 <;> simp [hm]

theorem validateZipDepth_arch (entries : ZipEntries) (m : Int) (hm : ¬ m < 0) :
    validateZipDepth (.arch entries) m = validateZipEntries entries m := by
  rw [validateZipDepth.eq_def]
  simp [hm]

theorem validateZipEntries_nil (m : Int) : validateZipEntries .nil m = .ok () := rfl

theorem validateZipEntries_cons (name : String) (node : ZipNode)
    (rest : ZipEntries) (m : Int) :
    validateZipEntries (.cons name node rest) m =
      if isZipName name then
        if m = 0 then .error nestedZipMsg
        else
          match validateZipDepth node (m - 1) with
          | .ok () => validateZipEntries rest m
          | .error e => .error e
      else validateZipEntries rest m := rfl

mutual

/-- On well-formed archives the inspector accepts exactly the trees whose
nested-archive depth is within the budget. -/
theorem validateZipDepth_ok_iff (node : ZipNode) (m : Int)
    (hwf : wellFormedNode node = true) (hm : 0 ≤ m) :
    validateZipDepth node m = .ok () ↔ (depthNode node : Int) ≤ m := by
  cases node with
  | malformed => simp [wellFormedNode] at hwf
  | ioError => simp [wellFormedNode] at hwf
  | arch entries =>
    rw [validateZipDepth_arch entries m (by omega)]
    rw [depthNode]
    exact validateZipEntries_ok_iff entries m (by simpa [wellFormedNode] using hwf) hm
termination_by structural node

/-- Entry-list version of `validateZipDepth_ok_iff`. -/
theorem validateZipEntries_ok_iff (entries : ZipEntries) (m : Int)
    (hwf : wellFormedEntries entries = true) (hm : 0 ≤ m) :
    validateZipEntries entries m = .ok () ↔ (depthEntries entries : Int) ≤ m := by
  cases entries with
  | nil => simp [validateZipEntries_nil, depthEntries]; omega
  | cons name node rest =>
    rw [wellFormedEntries, Bool.and_eq_true, Bool.or_eq_true] at hwf
    obtain ⟨hwf1, hwfrest⟩ := hwf
    rw [validateZipEntries_cons, depthEntries]
    by_cases hz : isZipName name
    · simp only [hz, if_true, Bool.not_eq_true', Bool.true_eq_false, false_or] at hwf1 ⊢
      by_cases hm0 : m = 0
      · subst hm0
        simp only [if_true]
        constructor
        · intro h; exact absurd h (by simp)
        · intro h
          exfalso
          have hle := le_max_left (depthNode node + 1) (depthEntries rest)
          push_cast at h
          omega
      · rw [if_neg hm0]
        have hrec := validateZipDepth_ok_iff node (m - 1) hwf1 (by omega)
        have hrest := validateZipEntries_ok_iff rest m hwfrest hm
        rcases hcall : validateZipDepth node (m - 1) with e | u
        · simp only [hcall] at hrec
          constructor
          · intro h; exact absurd h (by simp)
          · intro h
            exfalso
            have hd : ¬ ((depthNode node : Int) ≤ m - 1) := by
              rw [← hrec]; simp
            have hle := le_max_left (depthNode node + 1) (depthEntries rest)
            push_cast at h
            omega
        · simp only [hcall] at hrec
          rw [hrest]
          have hd : (depthNode node : Int) ≤ m - 1 := hrec.mp trivial
          constructor
          · intro h
            push_cast
            omega
          · intro h
            push_cast at h
            omega
    · simp only [hz, if_false, Bool.false_eq_true, false_or]
      rw [validateZipEntries_ok_iff rest m hwfrest hm]
      push_cast
      omega
termination_by structural entries

end

/-- With a zero budget, a zip-named entry is rejected as soon as the loop
reaches it, with the `max_zip_depth=0` message. -/
theorem validateZipEntries_zero_of_hasZip (entries : ZipEntries)
    (hz : hasZipEntry entries = true) :
    validateZipEntries entries 0 = .error nestedZipMsg := by
  cases entries with
  | nil => simp [hasZipEntry] at hz
  | cons name node rest =>
    rw [hasZipEntry, Bool.or_eq_true] at hz
    rw [validateZipEntries_cons]
    by_cases h : isZipName name
    · simp [h]
    · simp only [h, if_false, Bool.false_eq_true]
      exact validateZipEntries_zero_of_hasZip rest (by tauto)
termination_by structural entries

mutual

/-- Every inspector rejection carries one of the two rejection messages. -/
theorem validateZipDepth_error_classified (node : ZipNode) (m : Int) (e : String)
    (h : validateZipDepth node m = .error e) :
    e = invalidZipMsg ∨ e = nestedZipMsg := by
  by_cases hm : m < 0
  · rw [validateZipDepth_of_neg node m hm] at h
    exact absurd h (by simp)
  · cases node with
    | malformed =>
      rw [validateZipDepth_malformed m hm] at h
      left
      exact (Except.error.inj h).symm
    | ioError =>
      rw [validateZipDepth_ioError] at h
      exact absurd h (by simp)
    | arch entries =>
      rw [validateZipDepth_arch entries m hm] at h
      exact validateZipEntries_error_classified entries m e h
termination_by structural node

/-- Entry-list version of `validateZipDepth_error_classified`. -/
theorem validateZipEntries_error_classified (entries : ZipEntries) (m : Int)
    (e : String) (h : validateZipEntries entries m = .error e) :
    e = invalidZipMsg ∨ e = nestedZipMsg := by
  cases entries with
  | nil =>
    rw [validateZipEntries_nil] at h
    exact absurd h (by simp)
  | cons name node rest =>
    rw [validateZipEntries_cons] at h
    by_cases hz : isZipName name
    · rw [if_pos hz] at h
      by_cases hm0 : m = 0
      · rw [if_pos hm0] at h
        right
        exact (Except.error.inj h).symm
      · rw [if_neg hm0] at h
        rcases hcall : validateZipDepth node (m - 1) with e' | u
        · rw [hcall] at h
          have hc := validateZipDepth_error_classified node (m - 1) e' hcall
          rw [Except.error.inj h] at hc
          exact hc
        · rw [hcall] at h
          exact validateZipEntries_error_classified rest m e h
    · rw [if_neg hz] at h
      exact validateZipEntries_error_classified rest m e h
termination_by structural entries

end

mutual

/-- A tree with no malformed byte string can never produce the
`invalid archive` rejection. -/
theorem validateZipDepth_no_invalid (node : ZipNode) (m : Int)
    (h : hasMalformedNode node = false) :
    validateZipDepth node m ≠ .error invalidZipMsg := by
  by_cases hm : m < 0
  · rw [validateZipDepth_of_neg node m hm]; simp
  · cases node with
    | malformed => simp [hasMalformedNode] at h
    | ioError => rw [validateZipDepth_ioError]; simp
    | arch entries =>
      rw [validateZipDepth_arch entries m hm]
      exact validateZipEntries_no_invalid entries m (by simpa [hasMalformedNode] using h)
termination_by structural node

/-- Entry-list version of `validateZipDepth_no_invalid`. -/
theorem validateZipEntries_no_invalid (entries : ZipEntries) (m : Int)
    (h : hasMalformedEntries entries = false) :
    validateZipEntries entries m ≠ .error invalidZipMsg := by
  cases entries with
  | nil => rw [validateZipEntries_nil]; simp
  | cons name node rest =>
    rw [hasMalformedEntries, Bool.or_eq_false_iff] at h
    rw [validateZipEntries_cons]
    by_cases hz : isZipName name
    · rw [if_pos hz]
      by_cases hm0 : m = 0
      · rw [if_pos hm0]
        intro hc
        have hinj := Except.error.inj hc
        simp [nestedZipMsg, invalidZipMsg] at hinj
      · rw [if_neg hm0]
        rcases hcall : validateZipDepth node (m - 1) with e' | u
        · intro hc
          cases Except.error.inj hc
          exact validateZipDepth_no_invalid node (m - 1) h.1 hcall
        · exact validateZipEntries_no_invalid rest m h.2
    · rw [if_neg hz]
      exact validateZipEntries_no_invalid rest m h.2
termination_by structural entries

end

/-- An entry whose inspection raises an unexpected error is passed over as
if it were clean (the recursive call swallows the error). -/
theorem validateZipDepth_ioError_entry_skipped (name : String) (rest : ZipEntries)
    (m : Int) (hm : 1 ≤ m) :
    validateZipDepth (.arch (.cons name .ioError rest)) m =
      validateZipDepth (.arch rest) m := by
  rw [validateZipDepth_arch _ m (by omega), validateZipDepth_arch rest m (by omega)]
  rw [validateZipEntries_cons]
  by_cases hz : isZipName name
  · rw [if_pos hz, if_neg (by omega)]
    rw [validateZipDepth_ioError]
  · rw [if_neg hz]

/-! ## Claim C8 -/

/-- C8: any error during zip-depth inspection that is neither a
malformed-archive error nor a depth rejection makes the inspection pass: an
unexpected error at the top level passes, an entry whose inspection raises
an unexpected error is skipped, every rejection carries one of the two
rejection messages, and the `invalid archive` rejection can only come from a
malformed (BadZipFile-raising) byte string. -/
theorem C8_fail_open :
    (∀ m : Int, validateZipDepth .ioError m = .ok ()) ∧
    (∀ (name : String) (rest : ZipEntries) (m : Int), 1 ≤ m →
      validateZipDepth (.arch (.cons name .ioError rest)) m =
        validateZipDepth (.arch rest) m) ∧
    (∀ (node : ZipNode) (m : Int) (e : String),
      validateZipDepth node m = .error e →
        e = invalidZipMsg ∨ e = nestedZipMsg) ∧
    (∀ (node : ZipNode) (m : Int), hasMalformedNode node = false →
      validateZipDepth node m ≠ .error invalidZipMsg) :=
  ⟨validateZipDepth_ioError,
   validateZipDepth_ioError_entry_skipped,
   validateZipDepth_error_classified,
   validateZipDepth_no_invalid⟩

/-- Witness for C8: an inspection that hits an unexpected error passes at
budget 0; a damaged entry among clean ones is skipped at budget 2; the
depth rejection is one of the two admissible messages; a clean nested
archive never reports `invalid archive`. -/
theorem C8_fail_open_witness :
    validateZipDepth .ioError 0 = .ok () ∧
    validateZipDepth (.arch (.cons "broken.zip" .ioError .nil)) 2 =
      validateZipDepth (.arch .nil) 2 ∧
    (nestedZipMsg = invalidZipMsg ∨ nestedZipMsg = nestedZipMsg) ∧
    validateZipDepth (.arch (.cons "a.zip" (.arch .nil) .nil)) 0 ≠
      .error invalidZipMsg :=
  ⟨C8_fail_open.1 0,
   C8_fail_open.2.1 "broken.zip" .nil 2 (by decide),
   C8_fail_open.2.2.1 (.arch (.cons "x.zip" (.arch .nil) .nil)) 0 nestedZipMsg
      (by decide),
   C8_fail_open.2.2.2 (.arch (.cons "a.zip" (.arch .nil) .nil)) 0 (by decide)⟩

/-! ## Lemmas about the filename sanitizer -/

/-- Whether `".."` occurs as a contiguous substring. -/
def hasDotDot : List Char → Bool
  | a :: b :: rest => (a = '.' && b = '.') || hasDotDot (b :: rest)
  | _ => false

theorem removeDotDot_cons_ne (b : Char) (rest : List Char) (hb : b ≠ '.') :
    removeDotDot (b :: rest) = b :: removeDotDot rest := by
  cases rest with
  | nil => rfl
  | cons r rs =>
    rw [removeDotDot]
    rw [if_neg (by tauto)]

theorem hasDotDot_removeDotDot (l : List Char) :
    hasDotDot (removeDotDot l) = false := by
  induction l using removeDotDot.induct with
  | case1 => rfl
  | case2 c => rfl
  | case3 a b rest hab ih =>
    rw [removeDotDot, if_pos hab]
    exact ih
  | case4 a b rest hab ih =>
    rw [removeDotDot, if_neg hab]
    by_cases ha : a = '.'
    · have hb : b ≠ '.' := fun hb => hab ⟨ha, hb⟩
      rw [removeDotDot_cons_ne b rest hb] at ih ⊢
      rw [hasDotDot]
      simp only [Bool.or_eq_false_iff, Bool.and_eq_false_iff]
      constructor
      · right; simp [hb]
      · exact ih
    · cases hrec : removeDotDot (b :: rest) with
      | nil => simp [hasDotDot]
      | cons x xs =>
        rw [hasDotDot]
        rw [hrec] at ih
        simp only [Bool.or_eq_false_iff, Bool.and_eq_false_iff]
        constructor
        · left; simp [ha]
        · exact ih

theorem mem_removeDotDot (l : List Char) (c : Char) (h : c ∈ removeDotDot l) :
    c ∈ l := by
  induction l using removeDotDot.induct with
  | case1 => simp [removeDotDot] at h
  | case2 d => simpa [removeDotDot] using h
  | case3 a b rest hab ih =>
    rw [removeDotDot, if_pos hab] at h
    simp [ih h]
  | case4 a b rest hab ih =>
    rw [removeDotDot, if_neg hab] at h
    rcases List.mem_cons.mp h with h1 | h2
    · simp [h1]
    · have := ih h2
      simp only [List.mem_cons] at this ⊢
      tauto

theorem mem_mapSeparators (l : List Char) (c : Char) (h : c ∈ mapSeparators l) :
    c = '_' ∨ c ∈ l := by
  rw [mapSeparators] at h
  rcases List.mem_map.mp h with ⟨d, hd, hdc⟩
  by_cases hsep : d = '/' ∨ d = '\\'
  · left; rw [← hdc]; simp [hsep]
  · right
    have : d = c := by rw [← hdc]; simp [hsep]
    rwa [← this]

theorem mapSeparators_no_sep (l : List Char) (c : Char) (h : c ∈ mapSeparators l) :
    c ≠ '/' ∧ c ≠ '\\' := by
  rw [mapSeparators] at h
  rcases List.mem_map.mp h with ⟨d, _, hdc⟩
  by_cases hsep : d = '/' ∨ d = '\\'
  · rw [← hdc, if_pos hsep]
    exact ⟨by decide, by decide⟩
  · rw [← hdc, if_neg hsep]
    tauto

theorem hasDotDot_mapSeparators (l : List Char) :
    hasDotDot (mapSeparators l) = hasDotDot l := by
  have hbool : ∀ d : Char,
      (decide ((if d = '/' ∨ d = '\\' then '_' else d) = '.')) = decide (d = '.') := by
    intro d
    by_cases hsep : d = '/' ∨ d = '\\'
    · rw [if_pos hsep]
      apply decide_eq_decide.mpr
      constructor
      · intro hh; exact absurd hh (by decide)
      · intro hh; rw [hh] at hsep; exact absurd hsep (by decide)
    · rw [if_neg hsep]
  induction l with
  | nil => rfl
  | cons a rest ih =>
    cases rest with
    | nil => rfl
    | cons b rs =>
      simp only [mapSeparators, List.map_cons] at ih ⊢
      rw [hasDotDot, hasDotDot, ih, hbool a, hbool b]

theorem basenameChars_aux (l : List Char) (acc : List Char)
    (h : ∀ c ∈ l, c ≠ '/') :
    l.foldl (fun acc c => if c = '/' then [] else acc ++ [c]) acc = acc ++ l := by
  induction l generalizing acc with
  | nil => simp
  | cons a rest ih =>
    rw [List.foldl_cons]
    rw [if_neg (h a (by simp))]
    rw [ih (acc ++ [a]) (fun c hc => h c (by simp [hc]))]
    simp

theorem basenameChars_eq_self (l : List Char) (h : ∀ c ∈ l, c ≠ '/') :
    basenameChars l = l := by
  rw [basenameChars, basenameChars_aux l [] h]
  simp

theorem hasDotDot_take (l : List Char) (n : Nat) (h : hasDotDot l = false) :
    hasDotDot (l.take n) = false := by
  induction l generalizing n with
  | nil => simp [hasDotDot]
  | cons a rest ih =>
    cases n with
    | zero => simp [hasDotDot]
    | succ n =>
      rw [List.take_succ_cons]
      cases rest with
      | nil =>
        simp only [List.take_nil]
        rfl
      | cons b rs =>
        rw [hasDotDot, Bool.or_eq_false_iff] at h
        cases n with
        | zero => rfl
        | succ n =>
          rw [List.take_succ_cons]
          rw [hasDotDot, Bool.or_eq_false_iff]
          refine ⟨h.1, ?_⟩
          have := ih (n + 1) h.2
          rwa [List.take_succ_cons] at this

theorem hasDotDot_of_no_dot (l : List Char) (h : ∀ c ∈ l, c ≠ '.') :
    hasDotDot l = false := by
  induction l with
  | nil => rfl
  | cons a rest ih =>
    cases rest with
    | nil => rfl
    | cons b rs =>
      rw [hasDotDot, Bool.or_eq_false_iff]
      refine ⟨?_, ih (fun c hc => h c (by simp [List.mem_cons] at hc ⊢; tauto))⟩
      simp only [Bool.and_eq_false_iff, decide_eq_false_iff_not]
      left
      exact h a (by simp)

theorem mem_natDigitsAux (fuel n : Nat) (acc : List Char) (c : Char)
    (h : c ∈ natDigitsAux fuel n acc) :
    c ∈ acc ∨ ∃ d, d < 10 ∧ c = digitChar d := by
  induction fuel generalizing n acc with
  | zero =>
    left
    rw [show natDigitsAux 0 n acc = acc from rfl] at h
    exact h
  | succ fuel ih =>
    rw [natDigitsAux] at h
    by_cases hn : n = 0
    · rw [if_pos hn] at h; left; exact h
    · rw [if_neg hn] at h
      rcases ih (n / 10) (digitChar (n % 10) :: acc) h with hacc | hd
      · rcases List.mem_cons.mp hacc with h1 | h2
        · right; exact ⟨n % 10, Nat.mod_lt n (by omega), h1⟩
        · left; exact h2
      · right; exact hd

theorem mem_natDigits (n : Nat) (c : Char) (h : c ∈ natDigits n) :
    ∃ d, d < 10 ∧ c = digitChar d := by
  rw [natDigits] at h
  by_cases hn : n = 0
  · rw [if_pos hn] at h
    simp only [List.mem_singleton] at h
    exact ⟨0, by omega, h⟩
  · rw [if_neg hn] at h
    rcases mem_natDigitsAux n n [] c h with hacc | hd
    · simp at hacc
    · exact hd

theorem digitChar_props (d : Nat) (hd : d < 10) :
    digitChar d ≠ '.' ∧ digitChar d ≠ '/' ∧ digitChar d ≠ '\\' ∧
      digitChar d ≠ Char.ofNat 0 := by
  interval_cases d <;> exact ⟨by decide, by decide, by decide, by decide⟩

theorem natDigitsAux_length (k : Nat) : ∀ (fuel n : Nat) (acc : List Char),
    n < 10 ^ k → (natDigitsAux fuel n acc).length ≤ k + acc.length := by
  induction k with
  | zero =>
    intro fuel n acc hn
    have : n = 0 := by simpa using hn
    subst this
    cases fuel with
    | zero => simp [natDigitsAux]
    | succ fuel => simp [natDigitsAux]
  | succ k ih =>
    intro fuel n acc hn
    cases fuel with
    | zero =>
      rw [show natDigitsAux 0 n acc = acc from rfl]
      omega
    | succ fuel =>
      rw [natDigitsAux]
      by_cases hz : n = 0
      · rw [if_pos hz]; omega
      · rw [if_neg hz]
        have hdiv : n / 10 < 10 ^ k := by
          rw [Nat.div_lt_iff_lt_mul (by omega)]
          calc n < 10 ^ (k + 1) := hn
          _ = 10 ^ k * 10 := by ring
        have := ih fuel (n / 10) (digitChar (n % 10) :: acc) hdiv
        simp only [List.length_cons] at this
        omega

theorem natDigits_length (n k : Nat) (h : n < 10 ^ k) :
    (natDigits n).length ≤ max 1 k := by
  rw [natDigits]
  by_cases hn : n = 0
  · rw [if_pos hn]; simp
  · rw [if_neg hn]
    have := natDigitsAux_length k n n [] h
    simp only [List.length_nil, Nat.add_zero] at this
    omega

theorem timestampName_props (ts : Nat) (c : Char) (h : c ∈ timestampName ts) :
    c ≠ Char.ofNat 0 ∧ c ≠ '/' ∧ c ≠ '\\' := by
  rw [timestampName] at h
  rcases List.mem_append.mp h with h1 | h2
  · fin_cases h1 <;> exact ⟨by decide, by decide, by decide⟩
  · rcases mem_natDigits ts c h2 with ⟨d, hd, rfl⟩
    have := digitChar_props d hd
    tauto

theorem timestampName_no_dotdot (ts : Nat) :
    hasDotDot (timestampName ts) = false := by
  rw [timestampName]
  apply hasDotDot_of_no_dot
  intro c hc
  rcases List.mem_append.mp hc with h1 | h2
  · fin_cases h1 <;> decide
  · rcases mem_natDigits ts c h2 with ⟨d, hd, rfl⟩
    exact (digitChar_props d hd).1

theorem timestampName_length (ts k : Nat) (h : ts < 10 ^ k) :
    (timestampName ts).length ≤ 5 + max 1 k := by
  rw [timestampName]
  rw [List.length_append]
  have := natDigits_length ts k h
  simp only [List.length_cons, List.length_nil]
  omega

theorem timestampName_ne_nil (ts : Nat) : timestampName ts ≠ [] := by
  rw [timestampName]
  simp

/-- Properties of the cleaned (pre-fallback) name. -/
theorem cleanedName_props (name : List Char) :
    (∀ c ∈ cleanedName name, c = '_' ∨ c ∈ removeNulls name) ∧
    (∀ c ∈ cleanedName name, c ≠ '/' ∧ c ≠ '\\') ∧
    hasDotDot (cleanedName name) = false ∧
    (cleanedName name).length ≤ 200 := by
  rw [cleanedName]
  set n2 := removeDotDot (removeNulls name) with hn2
  set n3 := mapSeparators n2 with hn3
  have hnoslash : ∀ c ∈ n3, c ≠ '/' := fun c hc => (mapSeparators_no_sep n2 c hc).1
  have hbase : basenameChars n3 = n3 := basenameChars_eq_self n3 hnoslash
  rw [hbase]
  have hdd3 : hasDotDot n3 = false := by
    rw [hn3, hasDotDot_mapSeparators]
    exact hasDotDot_removeDotDot (removeNulls name)
  by_cases hlen : n3.length > 200
  · rw [if_pos hlen]
    refine ⟨?_, ?_, ?_, ?_⟩
    · intro c hc
      have hc3 : c ∈ n3 := List.mem_of_mem_take hc
      rcases mem_mapSeparators n2 c hc3 with h1 | h2
      · left; exact h1
      · right; exact mem_removeDotDot (removeNulls name) c h2
    · intro c hc
      exact mapSeparators_no_sep n2 c (List.mem_of_mem_take hc)
    · exact hasDotDot_take n3 200 hdd3
    · simp
  · rw [if_neg hlen]
    refine ⟨?_, ?_, hdd3, by omega⟩
    · intro c hc
      rcases mem_mapSeparators n2 c hc with h1 | h2
      · left; exact h1
      · right; exact mem_removeDotDot (removeNulls name) c h2
    · intro c hc
      exact mapSeparators_no_sep n2 c hc

/-! ## Claim C9 -/

/-- C9 (amended): for every input and timestamp, the sanitizer returns a
non-empty name with no NUL, no path separator and no `".."` substring, of
length at most 200; a non-empty input whose cleaned form would be empty,
`"."` or `".."` falls back to the timestamp-derived name, while the empty
input returns the fixed name `"unnamed_file"`. -/
theorem C9_sanitize_props (name : List Char) (ts : Nat) (hts : ts < 10 ^ 195) :
    sanitizeFilename name ts ≠ [] ∧
    (∀ c ∈ sanitizeFilename name ts, c ≠ Char.ofNat 0 ∧ c ≠ '/' ∧ c ≠ '\\') ∧
    hasDotDot (sanitizeFilename name ts) = false ∧
    (sanitizeFilename name ts).length ≤ 200 ∧
    (name ≠ [] →
      (cleanedName name = [] ∨ cleanedName name = ['.'] ∨
        cleanedName name = ['.', '.']) →
      sanitizeFilename name ts = timestampName ts) ∧
    (name = [] → sanitizeFilename name ts = unnamedFile) := by
  by_cases hname : name = []
  · subst hname
    rw [show sanitizeFilename [] ts = unnamedFile from rfl]
    refine ⟨by decide, by decide, by decide, by decide, ?_, fun _ => rfl⟩
    intro hcontr
    exact absurd rfl hcontr
  · have hred : sanitizeFilename name ts =
        if cleanedName name = [] ∨ cleanedName name = ['.'] ∨
            cleanedName name = ['.', '.'] then timestampName ts
        else cleanedName name := by
      simp only [sanitizeFilename, if_neg hname]
    by_cases hfb : cleanedName name = [] ∨ cleanedName name = ['.'] ∨
        cleanedName name = ['.', '.']
    · rw [hred, if_pos hfb]
      refine ⟨timestampName_ne_nil ts, timestampName_props ts, ?_, ?_, ?_, ?_⟩
      · exact timestampName_no_dotdot ts
      · have := timestampName_length ts 195 hts
        omega
      · intro _ _
        rfl
      · intro hcontr
        exact absurd hcontr hname
    · rw [hred, if_neg hfb]
      obtain ⟨hmem, hsep, hdd, hlen⟩ := cleanedName_props name
      refine ⟨fun hnil => hfb (Or.inl hnil), ?_, hdd, hlen, ?_, ?_⟩
      · intro c hc
        have hnul : c ≠ Char.ofNat 0 := by
          rcases hmem c hc with h1 | h2
          · rw [h1]; decide
          · rw [removeNulls] at h2
            have := List.of_mem_filter h2
            simpa using this
        exact ⟨hnul, (hsep c hc).1, (hsep c hc).2⟩
      · intro _ hcond
        exact absurd hcond hfb
      · intro hcontr
        exact absurd hcontr hname

/-- Witness for C9: the properties at a concrete traversal-attack input and
timestamp. -/
theorem C9_sanitize_props_witness :
    sanitizeFilename "../../etc/passwd".data 1700000000 ≠ [] ∧
    (∀ c ∈ sanitizeFilename "../../etc/passwd".data 1700000000,
      c ≠ Char.ofNat 0 ∧ c ≠ '/' ∧ c ≠ '\\') ∧
    hasDotDot (sanitizeFilename "../../etc/passwd".data 1700000000) = false ∧
    (sanitizeFilename "../../etc/passwd".data 1700000000).length ≤ 200 ∧
    ("../../etc/passwd".data ≠ [] →
      (cleanedName "../../etc/passwd".data = [] ∨
        cleanedName "../../etc/passwd".data = ['.'] ∨
        cleanedName "../../etc/passwd".data = ['.', '.']) →
      sanitizeFilename "../../etc/passwd".data 1700000000 =
        timestampName 1700000000) ∧
    ("../../etc/passwd".data = [] →
      sanitizeFilename "../../etc/passwd".data 1700000000 = unnamedFile) :=
  C9_sanitize_props "../../etc/passwd".data 1700000000 (by norm_num)

/-- Counterexample for C9 as stated: the empty input cleans to the empty
name, yet the sanitizer returns the fixed string `"unnamed_file"`, not a
timestamp-derived name. -/
theorem C9_empty_input_cex :
    cleanedName [] = [] ∧
    sanitizeFilename [] 1700000000 = unnamedFile ∧
    sanitizeFilename [] 1700000000 ≠ timestampName 1700000000 := by
  refine ⟨rfl, rfl, ?_⟩
  decide

/-! ## Lemmas about the Validation Engine -/

theorem sizeCheck_none (n : Nat) : sizeCheck none n = .ok () := rfl

theorem sizeCheck_some (k : Int) (n : Nat) :
    sizeCheck (some k) n =
      if k > 0 ∧ ((n : Int) + 1023) / 1024 > k then
        .error ("File exceeds maximum allowed size of " ++ toString k ++ "KB")
      else .ok () := rfl

/-- The size check passes when no positive limit is configured or the total
is within it. -/
theorem sizeCheck_ok (maxKbCfg : Option Int) (n : Nat)
    (h : ∀ k, maxKbCfg = some k → 0 < k → (n : Int) ≤ 1024 * k) :
    sizeCheck maxKbCfg n = .ok () := by
  cases maxKbCfg with
  | none => rfl
  | some k =>
    rw [sizeCheck_some, if_neg]
    rintro ⟨hk, hdiv⟩
    have := h k rfl hk
    omega

/-- The size check rejects an oversized total, with the source's message. -/
theorem sizeCheck_error (k : Int) (n : Nat) (hk : 0 < k)
    (hbig : 1024 * k < (n : Int)) :
    sizeCheck (some k) n =
      .error ("File exceeds maximum allowed size of " ++ toString k ++ "KB") := by
  rw [sizeCheck_some]
  rw [if_pos ⟨hk, by omega⟩]

/-- A successful validation means the allow-list was non-empty and contained
the extension. -/
theorem validateAgainstConfig_ok_extension (cfg : TenantConfig) (ext mime : String)
    (n : Nat) (zipAt : Option ZipNode)
    (h : validateAgainstConfig cfg ext mime n zipAt = .ok ()) :
    cfg.allowedExtensions ≠ [] ∧ ext ∈ cfg.allowedExtensions.map lowerStr := by
  rw [validateAgainstConfig.eq_def] at h
  by_cases h0 : n = 0
  · rw [if_pos h0] at h; exact absurd h (by simp)
  · rw [if_neg h0] at h
    rcases hsc : sizeCheck cfg.maxFileSizeKbytes n with e | u
    · rw [hsc] at h; exact absurd h (by simp)
    · rw [hsc] at h
      by_cases hf : ext ∈ cfg.forbiddenExtensions.map lowerStr
      · rw [if_pos hf] at h; exact absurd h (by simp)
      · rw [if_neg hf] at h
        by_cases ha : cfg.allowedExtensions.map lowerStr ≠ [] ∧
            ext ∉ cfg.allowedExtensions.map lowerStr
        · rw [if_pos ha] at h; exact absurd h (by simp)
        · rw [if_neg ha] at h
          by_cases hemp : cfg.allowedExtensions.map lowerStr = []
          · rw [if_pos hemp] at h; exact absurd h (by simp)
          · push_neg at ha
            refine ⟨?_, ha hemp⟩
            intro hnil
            exact hemp (by rw [hnil]; rfl)

/-- All semantic conditions satisfied implies the validation passes. -/
theorem validateAgainstConfig_ok_of (cfg : TenantConfig) (ext mime : String)
    (n : Nat) (zipAt : Option ZipNode)
    (h0 : n ≠ 0)
    (hsz : ∀ k, cfg.maxFileSizeKbytes = some k → 0 < k → (n : Int) ≤ 1024 * k)
    (hfe : ext ∉ cfg.forbiddenExtensions.map lowerStr)
    (hae : ext ∈ cfg.allowedExtensions.map lowerStr)
    (hfm : lowerStr mime ∉ cfg.forbiddenMimeTypes.map lowerStr)
    (ham : lowerStr mime ∈ cfg.allowedMimeTypes.map lowerStr)
    (hzip : ∀ node, zipAt = some node → ext = ".zip" →
      validateZipDepth node (cfg.maxZipDepth.getD 0) = .ok ()) :
    validateAgainstConfig cfg ext mime n zipAt = .ok () := by
  have hane : cfg.allowedExtensions.map lowerStr ≠ [] :=
    List.ne_nil_of_mem hae
  have hamne : cfg.allowedMimeTypes.map lowerStr ≠ [] :=
    List.ne_nil_of_mem ham
  rw [validateAgainstConfig.eq_def, if_neg h0, sizeCheck_ok cfg.maxFileSizeKbytes n hsz]
  rw [if_neg hfe, if_neg (fun hc => hc.2 hae), if_neg (fun hc => hane hc)]
  rw [if_neg hfm, if_neg (fun hc => hc.2 ham), if_neg (fun hc => hamne hc)]
  cases zipAt with
  | none => rfl
  | some node =>
    show (if ext = ".zip" then validateZipDepth node (cfg.maxZipDepth.getD 0)
      else Except.ok ()) = Except.ok ()
    by_cases hz : ext = ".zip"
    · rw [if_pos hz]
      exact hzip node rfl hz
    · rw [if_neg hz]

/-- An oversized total is rejected with the size message (assuming a
positive configured limit). -/
theorem validateAgainstConfig_size_error (cfg : TenantConfig) (ext mime : String)
    (n : Nat) (zipAt : Option ZipNode) (k : Int)
    (hk : cfg.maxFileSizeKbytes = some k) (hkpos : 0 < k)
    (hbig : 1024 * k < (n : Int)) :
    validateAgainstConfig cfg ext mime n zipAt =
      .error ("File exceeds maximum allowed size of " ++ toString k ++ "KB") := by
  have h0 : n ≠ 0 := by
    intro hc
    rw [hc] at hbig
    simp at hbig
    omega
  rw [validateAgainstConfig.eq_def, if_neg h0, hk, sizeCheck_error k n hkpos hbig]

/-! ## Lemmas about the upload coordinator -/

/-- The rate limiter admits the call: no cache, or a counter below 50. -/
def rateAllowed : Option RedisEnv → Prop
  | none => True
  | some r => r.rateCount < 50

theorem checkUploadRateLimit_ok (redis : Option RedisEnv) (h : rateAllowed redis) :
    checkUploadRateLimit redis = .ok () := by
  cases redis with
  | none => rfl
  | some r =>
    rw [checkUploadRateLimit, if_neg]
    rw [rateAllowed] at h
    omega

/-- `_check_concurrent_upload` can never raise: its own `except Exception`
swallows the Conflict it builds. -/
theorem checkConcurrentUpload_never_errors (redis : Option RedisEnv) (key : String) :
    ∃ v, checkConcurrentUpload redis key = .ok v := by
  cases redis with
  | none => exact ⟨none, rfl⟩
  | some r =>
    cases hlf : r.lockFree
    · exact ⟨none, by rw [checkConcurrentUpload, checkConcurrentUploadBody, hlf]; rfl⟩
    · exact ⟨some key, by rw [checkConcurrentUpload, checkConcurrentUploadBody, hlf]; rfl⟩

/-- With the rate limiter passing, the coordinator always reaches the
streaming pipeline — the lock step cannot stop it. -/
theorem uploadFile_eq_pipeline (env : UploadEnv) (cfg : TenantConfig)
    (tenantId : Nat) (filename : List Char) (contentType : Option String)
    (contentLen : Nat) (tag metadata : Option String)
    (h : rateAllowed env.redis) :
    uploadFile env cfg tenantId filename contentType contentLen tag metadata =
      uploadPipeline env cfg tenantId filename contentType contentLen tag metadata := by
  obtain ⟨v, hv⟩ := checkConcurrentUpload_never_errors env.redis "upload-lock-key"
  rw [uploadFile, checkUploadRateLimit_ok env.redis h, hv]

theorem chunkSizesAux_sum (fuel : Nat) : ∀ n : Nat, n ≤ fuel →
    (chunkSizesAux fuel n).sum = n := by
  induction fuel with
  | zero =>
    intro n hn
    rw [show (0 : Nat) = 0 from rfl] at hn
    interval_cases n
    rfl
  | succ fuel ih =>
    intro n hn
    rw [chunkSizesAux]
    by_cases h0 : n = 0
    · rw [if_pos h0, h0]; rfl
    · rw [if_neg h0]
      by_cases hle : n ≤ chunkSize
      · rw [if_pos hle]; simp
      · rw [if_neg hle]
        rw [List.sum_cons, ih (n - chunkSize) (by rw [chunkSize] at hle ⊢; omega)]
        rw [chunkSize] at hle ⊢
        omega

theorem chunkSizes_sum (n : Nat) : (chunkSizes n).sum = n :=
  chunkSizesAux_sum n n (le_refl n)

theorem chunkSizesAux_pos (fuel : Nat) : ∀ (n : Nat) (c : Nat),
    c ∈ chunkSizesAux fuel n → 0 < c := by
  induction fuel with
  | zero =>
    intro n c hc
    simp [chunkSizesAux] at hc
  | succ fuel ih =>
    intro n c hc
    rw [chunkSizesAux] at hc
    by_cases h0 : n = 0
    · rw [if_pos h0] at hc; simp at hc
    · rw [if_neg h0] at hc
      by_cases hle : n ≤ chunkSize
      · rw [if_pos hle] at hc
        simp only [List.mem_singleton] at hc
        omega
      · rw [if_neg hle] at hc
        rcases List.mem_cons.mp hc with h1 | h2
        · rw [h1, chunkSize]; omega
        · exact ih (n - chunkSize) c h2

theorem chunkSizes_pos (n c : Nat) (hc : c ∈ chunkSizes n) : 0 < c :=
  chunkSizesAux_pos n n c hc

theorem chunkSizes_single (n : Nat) (h1 : 0 < n) (h2 : n ≤ chunkSize) :
    chunkSizes n = [n] := by
  rw [chunkSizes]
  cases n with
  | zero => omega
  | succ m =>
    rw [chunkSizesAux, if_neg (by omega), if_pos h2]

/-- A successful write loop returns the total bytes read. -/
theorem uploadLoop_ok_value (cfg : TenantConfig) (ext mime : String)
    (pp : Nat → ZipNode) : ∀ (sizes : List Nat) (acc v : Nat),
    uploadLoop cfg ext mime pp sizes acc = .ok v → v = acc + sizes.sum := by
  intro sizes
  induction sizes with
  | nil =>
    intro acc v h
    rw [uploadLoop] at h
    have := Except.ok.inj h
    simp [this]
  | cons c rest ih =>
    intro acc v h
    rw [uploadLoop] at h
    rcases hval : validateAgainstConfig cfg ext mime (acc + c) (some (pp (acc + c))) with e | u
    · rw [hval] at h; exact absurd h (by simp)
    · rw [hval] at h
      have := ih (acc + c) v h
      rw [List.sum_cons]
      omega

/-- The write loop succeeds when every running total validates. -/
theorem uploadLoop_ok_of (cfg : TenantConfig) (ext mime : String)
    (pp : Nat → ZipNode) : ∀ (sizes : List Nat) (acc : Nat),
    (∀ c ∈ sizes, 0 < c) →
    (∀ s, acc < s → s ≤ acc + sizes.sum →
      validateAgainstConfig cfg ext mime s (some (pp s)) = .ok ()) →
    uploadLoop cfg ext mime pp sizes acc = .ok (acc + sizes.sum) := by
  intro sizes
  induction sizes with
  | nil =>
    intro acc _ _
    rw [uploadLoop]
    simp
  | cons c rest ih =>
    intro acc hpos hval
    rw [uploadLoop]
    have hc : 0 < c := hpos c (by simp)
    have hv : validateAgainstConfig cfg ext mime (acc + c) (some (pp (acc + c))) = .ok () := by
      apply hval
      · omega
      · rw [List.sum_cons]; omega
    rw [hv]
    have := ih (acc + c) (fun d hd => hpos d (by simp [hd]))
      (fun s hs1 hs2 => hval s (by omega) (by rw [List.sum_cons]; omega))
    rw [this, List.sum_cons]
    ring_nf

/-- Pipeline outcome when the write loop rejects mid-stream. -/
theorem uploadPipeline_loop_error (env : UploadEnv) (cfg : TenantConfig)
    (tenantId : Nat) (filename : List Char) (contentType : Option String)
    (contentLen : Nat) (tag metadata : Option String) (e : String)
    (h : uploadLoop cfg (derivedExt filename env.ts)
      (detectMime contentType env.guessedMime) env.partialParse
      (chunkSizes contentLen) 0 = .error e) :
    uploadPipeline env cfg tenantId filename contentType contentLen tag metadata =
      ⟨.error (.validation e), none, none⟩ := by
  rw [uploadPipeline.eq_def, h]

/-- Pipeline outcome when the write loop completes. -/
theorem uploadPipeline_loop_ok (env : UploadEnv) (cfg : TenantConfig)
    (tenantId : Nat) (filename : List Char) (contentType : Option String)
    (contentLen : Nat) (tag metadata : Option String) (size : Nat)
    (h : uploadLoop cfg (derivedExt filename env.ts)
      (detectMime contentType env.guessedMime) env.partialParse
      (chunkSizes contentLen) 0 = .ok size) :
    uploadPipeline env cfg tenantId filename contentType contentLen tag metadata =
      uploadFinish env cfg tenantId (String.mk (derivedSafeName filename env.ts))
        (derivedExt filename env.ts) (detectMime contentType env.guessedMime)
        tag metadata size := by
  rw [uploadPipeline.eq_def, h]

/-- Finishing outcome when the final validation rejects. -/
theorem uploadFinish_val_error (env : UploadEnv) (cfg : TenantConfig)
    (tenantId : Nat) (safeName ext mediaType : String)
    (tag metadata : Option String) (size : Nat) (e : String)
    (h : validateAgainstConfig cfg ext mediaType size
      (some (env.partialParse size)) = .error e) :
    uploadFinish env cfg tenantId safeName ext mediaType tag metadata size =
      ⟨.error (.validation e), none, none⟩ := by
  rw [uploadFinish.eq_def, h]

/-- Finishing outcome when the final validation passes but the magic-byte
reconciliation rejects. -/
theorem uploadFinish_sniff_error (env : UploadEnv) (cfg : TenantConfig)
    (tenantId : Nat) (safeName ext mediaType : String)
    (tag metadata : Option String) (size : Nat) (e : String)
    (h1 : validateAgainstConfig cfg ext mediaType size
      (some (env.partialParse size)) = .ok ())
    (h2 : validateContentVsExtension env.sniff ext mediaType = .error e) :
    uploadFinish env cfg tenantId safeName ext mediaType tag metadata size =
      ⟨.error (.validation e), none, none⟩ := by
  rw [uploadFinish.eq_def, h1, h2]

/-- Finishing outcome when both final checks pass: the record is persisted
with the reconciled media type and the exact byte count. -/
theorem uploadFinish_ok (env : UploadEnv) (cfg : TenantConfig)
    (tenantId : Nat) (safeName ext mediaType : String)
    (tag metadata : Option String) (size : Nat) (actualMime : String)
    (h1 : validateAgainstConfig cfg ext mediaType size
      (some (env.partialParse size)) = .ok ())
    (h2 : validateContentVsExtension env.sniff ext mediaType = .ok actualMime) :
    uploadFinish env cfg tenantId safeName ext mediaType tag metadata size =
      ⟨.ok { tenantId := tenantId, fileId := env.fileId, fileName := safeName,
             filePath := "dst", mediaType := actualMime, fileSizeBytes := size,
             tag := tag, metadata := metadata },
       some { tenantId := tenantId, fileId := env.fileId, fileName := safeName,
              filePath := "dst", mediaType := actualMime, fileSizeBytes := size,
              tag := tag, metadata := metadata },
       some size⟩ := by
  rw [uploadFinish.eq_def, h1, h2]

/-! ## Claim C4 -/

/-- C4: an upload longer than `max_file_size_kbytes * 1024` bytes (positive
configured limit, rate limiter passing) fails with a ValidationFailed error,
persists no FileRecord, and leaves no bytes on disk. -/
theorem C4_oversize_rejected (env : UploadEnv) (cfg : TenantConfig)
    (tenantId : Nat) (filename : List Char) (contentType : Option String)
    (n : Nat) (tag metadata : Option String) (k : Int)
    (hrate : rateAllowed env.redis)
    (hk : cfg.maxFileSizeKbytes = some k) (hkpos : 0 < k)
    (hbig : 1024 * k < (n : Int)) :
    ∃ d, uploadFile env cfg tenantId filename contentType n tag metadata =
      ⟨.error (.validation d), none, none⟩ := by
  rw [uploadFile_eq_pipeline env cfg tenantId filename contentType n tag metadata hrate]
  rcases hloop : uploadLoop cfg (derivedExt filename env.ts)
      (detectMime contentType env.guessedMime) env.partialParse
      (chunkSizes n) 0 with e | size
  · exact ⟨e, uploadPipeline_loop_error env cfg tenantId filename contentType n
      tag metadata e hloop⟩
  · have hsize : size = n := by
      have := uploadLoop_ok_value cfg (derivedExt filename env.ts)
        (detectMime contentType env.guessedMime) env.partialParse
        (chunkSizes n) 0 size hloop
      rw [chunkSizes_sum] at this
      omega
    subst hsize
    rw [uploadPipeline_loop_ok env cfg tenantId filename contentType size
      tag metadata size hloop]
    rw [uploadFinish_val_error env cfg tenantId _ _ _ tag metadata size _
      (validateAgainstConfig_size_error cfg _ _ size _ k hk hkpos hbig)]
    exact ⟨"File exceeds maximum allowed size of " ++ toString k ++ "KB", rfl⟩

/-- Witness for C4: an 11000-byte upload against a 10 KB limit. -/
theorem C4_oversize_rejected_witness :
    ∃ d, uploadFile
        { redis := none, ts := 7, fileId := "CF_FR_w4", guessedMime := none,
          sniff := .unknown, partialParse := fun _ => .malformed }
        { maxFileSizeKbytes := some 10, allowedExtensions := [".txt"],
          allowedMimeTypes := ["text/plain"] }
        1 "notes.txt".data (some "text/plain") 11000 none none =
      ⟨.error (.validation d), none, none⟩ :=
  C4_oversize_rejected
    { redis := none, ts := 7, fileId := "CF_FR_w4", guessedMime := none,
      sniff := .unknown, partialParse := fun _ => .malformed }
    { maxFileSizeKbytes := some 10, allowedExtensions := [".txt"],
      allowedMimeTypes := ["text/plain"] }
    1 "notes.txt".data (some "text/plain") 11000 none none 10
    (by trivial) rfl (by norm_num) (by norm_num)

/-! ## Claim C5 -/

/-- C5: with a non-empty allow-list every extension outside it is rejected,
and with an empty allow-list every extension is rejected (fail-closed). -/
theorem C5_extension_fail_closed (cfg : TenantConfig) (ext mime : String)
    (n : Nat) (zipAt : Option ZipNode) :
    (cfg.allowedExtensions ≠ [] → ext ∉ cfg.allowedExtensions.map lowerStr →
      validateAgainstConfig cfg ext mime n zipAt ≠ .ok ()) ∧
    (cfg.allowedExtensions = [] →
      validateAgainstConfig cfg ext mime n zipAt ≠ .ok ()) := by
  constructor
  · intro _ hnotin hok
    exact hnotin (validateAgainstConfig_ok_extension cfg ext mime n zipAt hok).2
  · intro hnil hok
    exact (validateAgainstConfig_ok_extension cfg ext mime n zipAt hok).1 hnil

/-- Witness for C5: `.exe` against an allow-list of `.txt`, and `.txt`
against an empty allow-list, are both rejected. -/
theorem C5_extension_fail_closed_witness :
    validateAgainstConfig
        { allowedExtensions := [".txt"], allowedMimeTypes := ["text/plain"] }
        ".exe" "text/plain" 5 none ≠ .ok () ∧
    validateAgainstConfig
        { allowedExtensions := [], allowedMimeTypes := ["text/plain"] }
        ".txt" "text/plain" 5 none ≠ .ok () :=
  ⟨(C5_extension_fail_closed
      { allowedExtensions := [".txt"], allowedMimeTypes := ["text/plain"] }
      ".exe" "text/plain" 5 none).1 (by decide) (by decide),
   (C5_extension_fail_closed
      { allowedExtensions := [], allowedMimeTypes := ["text/plain"] }
      ".txt" "text/plain" 5 none).2 rfl⟩

/-! ## Claim C1 -/

/-- C1 (code bug): when the atomic set-if-absent fails, the body of
`_check_concurrent_upload` does raise the 409 Conflict, but the function's
own `except Exception` swallows it and returns `None`, so the second upload
proceeds and streams its bytes to disk instead of failing. -/
theorem C1_conflict_swallowed :
    checkConcurrentUploadBody false "k" = .error .conflict ∧
    checkConcurrentUpload (some { rateCount := 0, lockFree := false }) "k" =
      .ok none ∧
    (uploadFile
        { redis := some { rateCount := 0, lockFree := false }, ts := 7,
          fileId := "CF_FR_c1", guessedMime := none, sniff := .unknown,
          partialParse := fun _ => .malformed }
        { allowedExtensions := [".txt"], allowedMimeTypes := ["text/plain"] }
        1 "notes.txt".data (some "text/plain") 5 none none).result =
      .ok { tenantId := 1, fileId := "CF_FR_c1", fileName := "notes.txt",
            filePath := "dst", mediaType := "text/plain", fileSizeBytes := 5,
            tag := none, metadata := none } :=
  ⟨rfl, rfl, by decide⟩

/-! ## Claim C2 -/

/-- Counterexample for C2 as stated: the v2 streaming ingest performs no
quota admission check.  A 5-byte upload against a tenant whose configured
storage quota is 3 bytes (so any upload would exceed it) succeeds and
persists a FileRecord instead of failing with QuotaExceeded. -/
theorem C2_v2_no_quota_cex :
    (3 : Int) < 0 + 5 ∧
    uploadFile
        { redis := none, ts := 7, fileId := "CF_FR_q", guessedMime := none,
          sniff := .unknown, partialParse := fun _ => .malformed }
        { allowedExtensions := [".txt"], allowedMimeTypes := ["text/plain"],
          storageQuotaBytes := some 3, fileCountLimit := some 1 }
        1 "notes.txt".data (some "text/plain") 5 none none =
      ⟨.ok { tenantId := 1, fileId := "CF_FR_q", fileName := "notes.txt",
             filePath := "dst", mediaType := "text/plain", fileSizeBytes := 5,
             tag := none, metadata := none },
       some { tenantId := 1, fileId := "CF_FR_q", fileName := "notes.txt",
              filePath := "dst", mediaType := "text/plain", fileSizeBytes := 5,
              tag := none, metadata := none },
       some 5⟩ := by
  exact ⟨by norm_num, by decide⟩

/-- C2 (amended): only the legacy ingest path performs the quota admission
check — file count first, then storage bytes including the new upload —
before any destination bytes are written, failing with the 413 quota errors
and persisting nothing. -/
theorem C2_legacy_quota_admission :
    (∀ (t : LegacyTenant) (files : List (Nat × Bool)) (size : Nat)
        (vok : Bool) (L : Int),
      t.isActive = true → t.fileCountLimit = some L → 0 < L →
      L < ((aggregateStats files).1 : Int) →
      legacyUploadFile t files size vok =
        ⟨.error .quotaFileCount, false, none⟩) ∧
    (∀ (t : LegacyTenant) (files : List (Nat × Bool)) (size : Nat)
        (vok : Bool) (Q : Int),
      t.isActive = true →
      withinFileCountQuota t (aggregateStats files).1 = true →
      t.storageQuotaBytes = some Q → 0 < Q →
      Q < ((aggregateStats files).2 : Int) + size →
      legacyUploadFile t files size vok =
        ⟨.error .quotaStorage, false, none⟩) := by
  constructor
  · intro t files size vok L hact hL hLpos hover
    have hwfc : withinFileCountQuota t (aggregateStats files).1 = false := by
      rw [withinFileCountQuota.eq_def, hL]
      show decide (¬ (L ≠ 0 ∧ ((aggregateStats files).1 : Int) > L)) = false
      exact decide_eq_false (not_not.mpr ⟨by omega, by omega⟩)
    rw [legacyUploadFile, if_neg (by simp [hact])]
    rw [if_pos (by simp [hwfc])]
  · intro t files size vok Q hact hwfc hQ hQpos hover
    have hstor : storageQuotaOk t.storageQuotaBytes (aggregateStats files).2 size
        = false := by
      rw [storageQuotaOk.eq_def, hQ]
      show decide (¬ (Q ≠ 0 ∧ ((aggregateStats files).2 : Int) + size > Q)) = false
      exact decide_eq_false (not_not.mpr ⟨by omega, by omega⟩)
    rw [legacyUploadFile, if_neg (by simp [hact])]
    rw [if_neg (by simp [hwfc])]
    rw [if_pos (by simp [hstor])]

/-- Witness for C2 (amended): a tenant with limit 1 and two live files is
refused on file count; a tenant with a 10-byte quota and 8 bytes used is
refused an 80-byte upload on storage. -/
theorem C2_legacy_quota_admission_witness :
    legacyUploadFile
        { isActive := true, storageQuotaBytes := none, fileCountLimit := some 1 }
        [(4, false), (6, false)] 5 true =
      ⟨.error .quotaFileCount, false, none⟩ ∧
    legacyUploadFile
        { isActive := true, storageQuotaBytes := some 10, fileCountLimit := none }
        [(8, false)] 80 true =
      ⟨.error .quotaStorage, false, none⟩ :=
  ⟨C2_legacy_quota_admission.1
      { isActive := true, storageQuotaBytes := none, fileCountLimit := some 1 }
      [(4, false), (6, false)] 5 true 1 rfl rfl (by norm_num) (by decide),
   C2_legacy_quota_admission.2
      { isActive := true, storageQuotaBytes := some 10, fileCountLimit := none }
      [(8, false)] 80 true 10 rfl (by decide) rfl (by norm_num) (by decide)⟩

/-! ## Claim C7 -/

/-- Away from the read-error path, the reconciliation is the two PDF
cross-checks over the sniffed type. -/
theorem validateContentVsExtension_not_readError (sniff : SniffKind)
    (ext detected : String) (h : sniff ≠ .readError) :
    validateContentVsExtension sniff ext detected =
      (if ext = ".pdf" ∧ ¬ startsWithStr (resolveSniff sniff detected) "application/pdf" then
        .error ("File extension .pdf does not match actual file type ("
          ++ resolveSniff sniff detected ++ ")")
      else if ext ≠ ".pdf" ∧ startsWithStr (resolveSniff sniff detected) "application/pdf" then
        .error ("File appears to be PDF but has extension " ++ ext)
      else .ok (resolveSniff sniff detected)) := by
  cases sniff <;> first | rfl | exact absurd rfl h

/-- C7: whenever the magic-byte sniff runs, a `.pdf` extension over
non-PDF-sniffing content is rejected, a non-`.pdf` extension over
PDF-sniffing content is rejected, and in every other case the stored media
type becomes the sniffed value; a PNG signature under a `.pdf` name is
always rejected, and a JPEG signature under a `.png` name is stored as
`image/jpeg` by the pipeline. -/
theorem C7_content_reconciliation :
    (∀ (sniff : SniffKind) (ext detected : String), sniff ≠ .readError →
      ((ext = ".pdf" ∧
          ¬ startsWithStr (resolveSniff sniff detected) "application/pdf") →
        validateContentVsExtension sniff ext detected =
          .error ("File extension .pdf does not match actual file type ("
            ++ resolveSniff sniff detected ++ ")")) ∧
      ((ext ≠ ".pdf" ∧
          startsWithStr (resolveSniff sniff detected) "application/pdf") →
        validateContentVsExtension sniff ext detected =
          .error ("File appears to be PDF but has extension " ++ ext)) ∧
      ((ext = ".pdf" ↔
          startsWithStr (resolveSniff sniff detected) "application/pdf") →
        validateContentVsExtension sniff ext detected =
          .ok (resolveSniff sniff detected))) ∧
    (∀ detected : String, validateContentVsExtension .png ".pdf" detected =
      .error ("File extension .pdf does not match actual file type ("
        ++ resolveSniff .png detected ++ ")")) ∧
    (uploadFile
        { redis := none, ts := 7, fileId := "CF_FR_c7", guessedMime := none,
          sniff := .jpeg, partialParse := fun _ => .malformed }
        { allowedExtensions := [".png"], allowedMimeTypes := ["image/png"] }
        1 "photo.png".data (some "image/png") 5 none none).result =
      .ok { tenantId := 1, fileId := "CF_FR_c7", fileName := "photo.png",
            filePath := "dst", mediaType := "image/jpeg", fileSizeBytes := 5,
            tag := none, metadata := none } := by
  refine ⟨?_, ?_, by decide⟩
  · intro sniff ext detected hne
    have heq := validateContentVsExtension_not_readError sniff ext detected hne
    refine ⟨?_, ?_, ?_⟩
    · rintro ⟨hpdf, hnost⟩
      rw [heq, if_pos ⟨hpdf, hnost⟩]
    · rintro ⟨hnpdf, hst⟩
      rw [heq, if_neg (fun hc => hc.2 hst), if_pos ⟨hnpdf, hst⟩]
    · intro hiff
      have hc1 : ¬ (ext = ".pdf" ∧
          ¬ startsWithStr (resolveSniff sniff detected) "application/pdf") :=
        fun hc => hc.2 (hiff.mp hc.1)
      have hc2 : ¬ (ext ≠ ".pdf" ∧
          startsWithStr (resolveSniff sniff detected) "application/pdf") :=
        fun hc => hc.1 (hiff.mpr hc.2)
      rw [heq, if_neg hc1, if_neg hc2]
  · intro detected
    have heq := validateContentVsExtension_not_readError .png ".pdf" detected
      (by decide)
    rw [heq, if_pos ⟨rfl,
      (by decide : ¬ startsWithStr "image/png" "application/pdf" = true)⟩]

/-- Witness for C7: concrete instances of the three reconciliation cases. -/
theorem C7_content_reconciliation_witness :
    validateContentVsExtension .png ".pdf" "application/pdf" =
      .error ("File extension .pdf does not match actual file type ("
        ++ resolveSniff .png "application/pdf" ++ ")") ∧
    validateContentVsExtension .pdf ".txt" "text/plain" =
      .error ("File appears to be PDF but has extension " ++ ".txt") ∧
    validateContentVsExtension .jpeg ".jpg" "image/jpeg" =
      .ok (resolveSniff .jpeg "image/jpeg") :=
  ⟨(C7_content_reconciliation.1 .png ".pdf" "application/pdf" (by decide)).1
      ⟨rfl, by decide⟩,
   (C7_content_reconciliation.1 .pdf ".txt" "text/plain" (by decide)).2.1
      ⟨by decide, by decide⟩,
   (C7_content_reconciliation.1 .jpeg ".jpg" "image/jpeg" (by decide)).2.2
      (by decide)⟩

/-! ## Claim C10 -/

/-- C10: updating a file with `None` tag (or `None` metadata) leaves that
column unchanged, every immutable column is untouched, and rows with a
different key survive the update. -/
theorem C10_update_none_preserves (store : List FileRecord) (tenantId : Nat)
    (fileId : String) (tag metadata : Option String) (r : FileRecord)
    (hfind : getById store tenantId fileId = some r) :
    ∃ r', (serviceUpdateFile store tenantId fileId tag metadata).1 = .ok r' ∧
      (tag = none → r'.tag = r.tag) ∧
      (metadata = none → r'.metadata = r.metadata) ∧
      r'.tenantId = r.tenantId ∧ r'.fileId = r.fileId ∧
      r'.fileName = r.fileName ∧ r'.filePath = r.filePath ∧
      r'.mediaType = r.mediaType ∧ r'.fileSizeBytes = r.fileSizeBytes ∧
      (∀ x ∈ store, ¬ (x.tenantId = tenantId ∧ x.fileId = fileId) →
        x ∈ (serviceUpdateFile store tenantId fileId tag metadata).2) := by
  refine ⟨applyMutable r none tag metadata, ?_, ?_, ?_, ?_, ?_, ?_, ?_, ?_, ?_, ?_⟩
  · rw [serviceUpdateFile.eq_def, updateMutable.eq_def, hfind]
  · intro htag
    subst htag
    rfl
  · intro hmd
    subst hmd
    rfl
  · rfl
  · rfl
  · rfl
  · rfl
  · rfl
  · rfl
  · intro x hx hkey
    have hsnd : (serviceUpdateFile store tenantId fileId tag metadata).2 =
        store.map (fun y =>
          if y.tenantId = tenantId ∧ y.fileId = fileId then
            applyMutable y none tag metadata
          else y) := by
      rw [serviceUpdateFile.eq_def, updateMutable.eq_def, hfind]
    rw [hsnd]
    have : (if x.tenantId = tenantId ∧ x.fileId = fileId then
        applyMutable x none tag metadata else x) = x := if_neg hkey
    rw [← this]
    exact List.mem_map_of_mem _ hx

/-- A concrete one-row table for exercising the update path. -/
def sampleRecord : FileRecord :=
  { tenantId := 1, fileId := "CF_FR_z", fileName := "a.txt",
    filePath := "p", mediaType := "text/plain", fileSizeBytes := 3,
    tag := some "t1", metadata := some "m1" }

/-- Witness for C10: a one-row table updated with both arguments `None`. -/
theorem C10_update_none_preserves_witness :
    ∃ r', (serviceUpdateFile [sampleRecord] 1 "CF_FR_z" none none).1 = .ok r' ∧
      (none = (none : Option String) → r'.tag = sampleRecord.tag) ∧
      (none = (none : Option String) → r'.metadata = sampleRecord.metadata) ∧
      r'.tenantId = sampleRecord.tenantId ∧ r'.fileId = sampleRecord.fileId ∧
      r'.fileName = sampleRecord.fileName ∧ r'.filePath = sampleRecord.filePath ∧
      r'.mediaType = sampleRecord.mediaType ∧
      r'.fileSizeBytes = sampleRecord.fileSizeBytes ∧
      (∀ x ∈ [sampleRecord],
        ¬ (FileRecord.tenantId x = 1 ∧ FileRecord.fileId x = "CF_FR_z") →
        x ∈ (serviceUpdateFile [sampleRecord] 1 "CF_FR_z" none none).2) :=
  C10_update_none_preserves [sampleRecord] 1 "CF_FR_z" none none sampleRecord
    (by decide)

/-! ## Claim C6 -/

/-- Core success lemma for the streaming coordinator: all semantic limits
satisfied, reconciliation passing, and any `.zip` within one read, yields a
persisted record of the exact size. -/
theorem uploadFile_success_of (env : UploadEnv) (cfg : TenantConfig)
    (tenantId : Nat) (filename : List Char) (contentType : Option String)
    (n : Nat) (tag metadata : Option String)
    (hrate : rateAllowed env.redis)
    (hn : 0 < n)
    (hsz : ∀ k, cfg.maxFileSizeKbytes = some k → 0 < k → (n : Int) ≤ 1024 * k)
    (hfe : derivedExt filename env.ts ∉ cfg.forbiddenExtensions.map lowerStr)
    (hae : derivedExt filename env.ts ∈ cfg.allowedExtensions.map lowerStr)
    (hfm : lowerStr (detectMime contentType env.guessedMime) ∉
      cfg.forbiddenMimeTypes.map lowerStr)
    (ham : lowerStr (detectMime contentType env.guessedMime) ∈
      cfg.allowedMimeTypes.map lowerStr)
    (hzip : derivedExt filename env.ts = ".zip" →
      n ≤ chunkSize ∧
      validateZipDepth (env.partialParse n) (cfg.maxZipDepth.getD 0) = .ok ())
    (hsniff : ∃ am, validateContentVsExtension env.sniff
      (derivedExt filename env.ts) (detectMime contentType env.guessedMime) =
        .ok am) :
    ∃ r : FileRecord,
      uploadFile env cfg tenantId filename contentType n tag metadata =
        ⟨.ok r, some r, some n⟩ ∧ r.fileSizeBytes = n := by
  obtain ⟨am, hamok⟩ := hsniff
  have hvaln : ∀ s, 0 < s → s ≤ n →
      (derivedExt filename env.ts ≠ ".zip" ∨ s = n) →
      validateAgainstConfig cfg (derivedExt filename env.ts)
        (detectMime contentType env.guessedMime) s
        (some (env.partialParse s)) = .ok () := by
    intro s hs1 hs2 hcase
    apply validateAgainstConfig_ok_of
    · omega
    · intro k hk hkpos
      have h1 := hsz k hk hkpos
      have h2 : (s : Int) ≤ (n : Int) := by exact_mod_cast hs2
      omega
    · exact hfe
    · exact hae
    · exact hfm
    · exact ham
    · intro node heq hzz
      have hnode : env.partialParse s = node := Option.some.inj heq
      rcases hcase with hne | hsn
      · exact absurd hzz hne
      · subst hsn
        rw [← hnode]
        exact (hzip hzz).2
  have hloop : uploadLoop cfg (derivedExt filename env.ts)
      (detectMime contentType env.guessedMime) env.partialParse
      (chunkSizes n) 0 = .ok n := by
    by_cases hz : derivedExt filename env.ts = ".zip"
    · obtain ⟨hsmall, -⟩ := hzip hz
      rw [chunkSizes_single n hn hsmall]
      have hv := hvaln n hn (le_refl n) (Or.inr rfl)
      show (match validateAgainstConfig cfg (derivedExt filename env.ts)
          (detectMime contentType env.guessedMime) (0 + n)
          (some (env.partialParse (0 + n))) with
        | .ok () => uploadLoop cfg (derivedExt filename env.ts)
            (detectMime contentType env.guessedMime) env.partialParse [] (0 + n)
        | .error e => .error e) = .ok n
      rw [Nat.zero_add, hv]
      show Except.ok n = .ok n
      rfl
    · have hall := uploadLoop_ok_of cfg (derivedExt filename env.ts)
        (detectMime contentType env.guessedMime) env.partialParse
        (chunkSizes n) 0 (fun c hc => chunkSizes_pos n c hc)
        (fun s hs1 hs2 => by
          rw [Nat.zero_add, chunkSizes_sum] at hs2
          exact hvaln s (by omega) hs2 (Or.inl hz))
      rw [Nat.zero_add, chunkSizes_sum] at hall
      exact hall
  rw [uploadFile_eq_pipeline env cfg tenantId filename contentType n tag
    metadata hrate]
  rw [uploadPipeline_loop_ok env cfg tenantId filename contentType n tag
    metadata n hloop]
  rw [uploadFinish_ok env cfg tenantId (String.mk (derivedSafeName filename env.ts))
    (derivedExt filename env.ts) (detectMime contentType env.guessedMime)
    tag metadata n am (hvaln n hn (le_refl n) (Or.inr rfl)) hamok]
  exact ⟨_, rfl, rfl⟩

/-- C6 (amended): non-empty content satisfying every configured limit is
ingested successfully with `size_bytes` equal to the exact input length,
provided additionally that the magic-byte reconciliation accepts the
(extension, content) pair and that a `.zip` upload fits in a single 1 MiB
read so that the mid-stream inspection sees the complete archive. -/
theorem C6_success_exact_size (env : UploadEnv) (cfg : TenantConfig)
    (tenantId : Nat) (filename : List Char) (contentType : Option String)
    (n : Nat) (tag metadata : Option String)
    (hrate : rateAllowed env.redis)
    (hn : 0 < n)
    (hsz : ∀ k, cfg.maxFileSizeKbytes = some k → 0 < k → (n : Int) ≤ 1024 * k)
    (hfe : derivedExt filename env.ts ∉ cfg.forbiddenExtensions.map lowerStr)
    (hae : derivedExt filename env.ts ∈ cfg.allowedExtensions.map lowerStr)
    (hfm : lowerStr (detectMime contentType env.guessedMime) ∉
      cfg.forbiddenMimeTypes.map lowerStr)
    (ham : lowerStr (detectMime contentType env.guessedMime) ∈
      cfg.allowedMimeTypes.map lowerStr)
    (hzip : derivedExt filename env.ts = ".zip" →
      n ≤ chunkSize ∧
      validateZipDepth (env.partialParse n) (cfg.maxZipDepth.getD 0) = .ok ())
    (hsniff : ∃ am, validateContentVsExtension env.sniff
      (derivedExt filename env.ts) (detectMime contentType env.guessedMime) =
        .ok am) :
    ∃ r : FileRecord,
      uploadFile env cfg tenantId filename contentType n tag metadata =
        ⟨.ok r, some r, some n⟩ ∧ r.fileSizeBytes = n :=
  uploadFile_success_of env cfg tenantId filename contentType n tag metadata
    hrate hn hsz hfe hae hfm ham hzip hsniff

/-- Witness for C6 (amended): a 5-byte `.txt` upload within a 10 KB limit
succeeds with `size_bytes = 5`. -/
theorem C6_success_exact_size_witness :
    ∃ r : FileRecord,
      uploadFile
          { redis := none, ts := 7, fileId := "CF_FR_w6", guessedMime := none,
            sniff := .unknown, partialParse := fun _ => .malformed }
          { maxFileSizeKbytes := some 10, allowedExtensions := [".txt"],
            allowedMimeTypes := ["text/plain"] }
          1 "notes.txt".data (some "text/plain") 5 none none =
        ⟨.ok r, some r, some 5⟩ ∧ r.fileSizeBytes = 5 :=
  C6_success_exact_size
    { redis := none, ts := 7, fileId := "CF_FR_w6", guessedMime := none,
      sniff := .unknown, partialParse := fun _ => .malformed }
    { maxFileSizeKbytes := some 10, allowedExtensions := [".txt"],
      allowedMimeTypes := ["text/plain"] }
    1 "notes.txt".data (some "text/plain") 5 none none
    (by trivial) (by norm_num)
    (by
      intro k hk hkpos
      cases Option.some.inj hk
      norm_num)
    (by decide) (by decide) (by decide) (by decide) (by decide)
    ⟨"text/plain", by decide⟩

/-- Counterexample for C6 as stated: two contents that satisfy every
configured limit (size, extension, MIME, archive depth) and are still
rejected.  First, a 5-byte file named `report.pdf` whose bytes carry the PNG
signature — within every limit, but the reconciliation step rejects it.
Second, a well-formed depth-0 zip of 2^20 + 1 bytes whose 1 MiB prefix is
not a readable archive — within every limit (depth 0 ≤ 5), but the
mid-stream inspection of the truncated file rejects it. -/
theorem C6_limits_insufficient_cex :
    (uploadFile
        { redis := none, ts := 7, fileId := "CF_FR_x1", guessedMime := none,
          sniff := .png, partialParse := fun _ => .malformed }
        { allowedExtensions := [".pdf"], allowedMimeTypes := ["application/pdf"] }
        1 "report.pdf".data (some "application/pdf") 5 none none =
      ⟨.error (.validation
          "File extension .pdf does not match actual file type (image/png)"),
        none, none⟩) ∧
    wellFormedNode (ZipNode.arch .nil) = true ∧
    depthNode (ZipNode.arch .nil) = 0 ∧
    (uploadFile
        { redis := none, ts := 7, fileId := "CF_FR_x2", guessedMime := none,
          sniff := .unknown,
          partialParse := fun k =>
            if k = 1024 * 1024 + 1 then ZipNode.arch .nil else ZipNode.malformed }
        { allowedExtensions := [".zip"], allowedMimeTypes := ["application/zip"],
          maxZipDepth := some 5 }
        1 "big.zip".data (some "application/zip") (1024 * 1024 + 1) none none =
      ⟨.error (.validation invalidZipMsg), none, none⟩) :=
  ⟨by decide, by decide, by decide, by decide⟩

/-! ## Claim C3 -/

/-- On a `.zip` upload with every non-zip semantic check passing, the
configuration validation reduces to the zip-depth inspection of the bytes at
`dst_path`. -/
theorem validateAgainstConfig_zip_eq (cfg : TenantConfig) (mime : String)
    (n : Nat) (node : ZipNode)
    (h0 : n ≠ 0)
    (hsz : ∀ k, cfg.maxFileSizeKbytes = some k → 0 < k → (n : Int) ≤ 1024 * k)
    (hfe : (".zip" : String) ∉ cfg.forbiddenExtensions.map lowerStr)
    (hae : (".zip" : String) ∈ cfg.allowedExtensions.map lowerStr)
    (hfm : lowerStr mime ∉ cfg.forbiddenMimeTypes.map lowerStr)
    (ham : lowerStr mime ∈ cfg.allowedMimeTypes.map lowerStr) :
    validateAgainstConfig cfg ".zip" mime n (some node) =
      validateZipDepth node (cfg.maxZipDepth.getD 0) := by
  have hane : cfg.allowedExtensions.map lowerStr ≠ [] :=
    List.ne_nil_of_mem hae
  have hamne : cfg.allowedMimeTypes.map lowerStr ≠ [] :=
    List.ne_nil_of_mem ham
  rw [validateAgainstConfig.eq_def, if_neg h0, sizeCheck_ok cfg.maxFileSizeKbytes n hsz]
  rw [if_neg hfe, if_neg (fun hc => hc.2 hae), if_neg (fun hc => hane hc)]
  rw [if_neg hfm, if_neg (fun hc => hc.2 ham), if_neg (fun hc => hamne hc)]
  show (if (".zip" : String) = ".zip" then validateZipDepth node (cfg.maxZipDepth.getD 0)
    else Except.ok ()) = validateZipDepth node (cfg.maxZipDepth.getD 0)
  rw [if_pos rfl]

/-- C3 (amended): for every well-formed archive of nested-archive depth `d`
and every configured `max_zip_depth` `m ≥ 0`, the Zip Depth Inspector
succeeds iff `d ≤ m`; with `m = 0` any archive containing an entry whose
name denotes a nested archive is rejected immediately; and ingestion of the
archive, all other checks passing, succeeds iff `d ≤ m` PROVIDED the archive
fits in a single 1 MiB read — for larger archives the per-chunk validation
inspects truncated prefixes of the file and can reject an archive of
conforming depth (see the counterexample). -/
theorem C3_zip_depth_iff :
    (∀ (node : ZipNode) (m : Int), wellFormedNode node = true → 0 ≤ m →
      (validateZipDepth node m = .ok () ↔ (depthNode node : Int) ≤ m)) ∧
    (∀ entries : ZipEntries, hasZipEntry entries = true →
      validateZipDepth (.arch entries) 0 = .error nestedZipMsg) ∧
    (∀ (env : UploadEnv) (cfg : TenantConfig) (tenantId : Nat)
        (filename : List Char) (contentType : Option String) (n : Nat)
        (tag metadata : Option String),
      rateAllowed env.redis → 0 < n → n ≤ chunkSize →
      derivedExt filename env.ts = ".zip" →
      (∀ k, cfg.maxFileSizeKbytes = some k → 0 < k → (n : Int) ≤ 1024 * k) →
      derivedExt filename env.ts ∉ cfg.forbiddenExtensions.map lowerStr →
      derivedExt filename env.ts ∈ cfg.allowedExtensions.map lowerStr →
      lowerStr (detectMime contentType env.guessedMime) ∉
        cfg.forbiddenMimeTypes.map lowerStr →
      lowerStr (detectMime contentType env.guessedMime) ∈
        cfg.allowedMimeTypes.map lowerStr →
      wellFormedNode (env.partialParse n) = true →
      0 ≤ cfg.maxZipDepth.getD 0 →
      (∃ am, validateContentVsExtension env.sniff (derivedExt filename env.ts)
        (detectMime contentType env.guessedMime) = .ok am) →
      ((uploadFile env cfg tenantId filename contentType n tag
          metadata).result.isOk = true ↔
        (depthNode (env.partialParse n) : Int) ≤ cfg.maxZipDepth.getD 0)) := by
  refine ⟨fun node m h1 h2 => validateZipDepth_ok_iff node m h1 h2, ?_, ?_⟩
  · intro entries hz
    rw [validateZipDepth_arch entries 0 (by omega)]
    exact validateZipEntries_zero_of_hasZip entries hz
  · intro env cfg tenantId filename contentType n tag metadata hrate hn hsmall
      hext hsz hfe hae hfm ham hwf hm hsniff
    constructor
    · intro hok
      by_contra hd
      push_neg at hd
      have hnotok : ¬ validateZipDepth (env.partialParse n)
          (cfg.maxZipDepth.getD 0) = .ok () := fun hc =>
        absurd ((validateZipDepth_ok_iff (env.partialParse n)
          (cfg.maxZipDepth.getD 0) hwf hm).mp hc) (by omega)
      rcases hzz : validateZipDepth (env.partialParse n) (cfg.maxZipDepth.getD 0)
        with e | u
      · have hfe' := hfe
        have hae' := hae
        rw [hext] at hfe' hae'
        have hval : validateAgainstConfig cfg (derivedExt filename env.ts)
            (detectMime contentType env.guessedMime) n
            (some (env.partialParse n)) = .error e := by
          rw [hext, validateAgainstConfig_zip_eq cfg
            (detectMime contentType env.guessedMime) n (env.partialParse n)
            (by omega) hsz hfe' hae' hfm ham]
          exact hzz
        have hloop : uploadLoop cfg (derivedExt filename env.ts)
            (detectMime contentType env.guessedMime) env.partialParse
            (chunkSizes n) 0 = .error e := by
          rw [chunkSizes_single n hn hsmall]
          show (match validateAgainstConfig cfg (derivedExt filename env.ts)
              (detectMime contentType env.guessedMime) (0 + n)
              (some (env.partialParse (0 + n))) with
            | .ok () => uploadLoop cfg (derivedExt filename env.ts)
                (detectMime contentType env.guessedMime) env.partialParse [] (0 + n)
            | .error e' => .error e') = .error e
          rw [Nat.zero_add, hval]
        rw [uploadFile_eq_pipeline env cfg tenantId filename contentType n tag
          metadata hrate,
          uploadPipeline_loop_error env cfg tenantId filename contentType n tag
          metadata e hloop] at hok
        simp [Except.isOk, Except.toBool] at hok
      · cases u
        exact absurd hzz hnotok
    · intro hd
      have hzipok : validateZipDepth (env.partialParse n)
          (cfg.maxZipDepth.getD 0) = .ok () :=
        (validateZipDepth_ok_iff (env.partialParse n)
          (cfg.maxZipDepth.getD 0) hwf hm).mpr hd
      obtain ⟨r, heq, -⟩ := uploadFile_success_of env cfg tenantId filename
        contentType n tag metadata hrate hn hsz hfe hae hfm ham
        (fun _ => ⟨hsmall, hzipok⟩) hsniff
      rw [heq]
      rfl

/-- Witness for C3 (amended): the inspector iff at a depth-1 archive with
budget 1; the immediate `max_zip_depth=0` rejection at a nested entry; and
the ingestion-level iff at a 5-byte depth-1 `.zip` upload with budget 1. -/
theorem C3_zip_depth_iff_witness :
    (validateZipDepth (.arch (.cons "a.zip" (.arch .nil) .nil)) 1 = .ok () ↔
      ((depthNode (.arch (.cons "a.zip" (.arch .nil) .nil)) : Int) ≤ 1)) ∧
    validateZipDepth (.arch (.cons "inner.zip" (.arch .nil) .nil)) 0 =
      .error nestedZipMsg ∧
    ((uploadFile
        { redis := none, ts := 7, fileId := "CF_FR_w3", guessedMime := none,
          sniff := .unknown,
          partialParse := fun _ =>
            ZipNode.arch (.cons "inner.zip" (.arch .nil) .nil) }
        { allowedExtensions := [".zip"], allowedMimeTypes := ["application/zip"],
          maxZipDepth := some 1 }
        1 "nested.zip".data (some "application/zip") 5 none
        none).result.isOk = true ↔
      ((depthNode (ZipNode.arch (.cons "inner.zip" (.arch .nil) .nil)) : Int) ≤ 1)) :=
  ⟨C3_zip_depth_iff.1 (.arch (.cons "a.zip" (.arch .nil) .nil)) 1
      (by decide) (by decide),
   C3_zip_depth_iff.2.1 (.cons "inner.zip" (.arch .nil) .nil) (by decide),
   C3_zip_depth_iff.2.2
      { redis := none, ts := 7, fileId := "CF_FR_w3", guessedMime := none,
        sniff := .unknown,
        partialParse := fun _ =>
          ZipNode.arch (.cons "inner.zip" (.arch .nil) .nil) }
      { allowedExtensions := [".zip"], allowedMimeTypes := ["application/zip"],
        maxZipDepth := some 1 }
      1 "nested.zip".data (some "application/zip") 5 none none
      trivial (by decide) (by decide) (by decide)
      (fun k hk _ => Option.noConfusion hk)
      (by decide) (by decide) (by decide) (by decide) (by decide) (by decide)
      ⟨"application/zip", by decide⟩⟩

/-- Counterexample to C3 as stated: a well-formed depth-0 archive of
`2^20 + 2` bytes under `max_zip_depth = 3` passes the inspector on the full
file, yet its ingestion fails — after the first 1 MiB chunk the per-chunk
validation inspects the truncated prefix at `dst_path`, which is not a valid
archive, so the upload is rejected with the invalid-format message even
though every configured check holds on the complete content. -/
theorem C3_ingestion_iff_cex :
    wellFormedNode (ZipNode.arch .nil) = true ∧
    depthNode (ZipNode.arch .nil) = 0 ∧
    validateZipDepth (ZipNode.arch .nil) 3 = .ok () ∧
    uploadFile
        { redis := none, ts := 7, fileId := "CF_FR_c3", guessedMime := none,
          sniff := .unknown,
          partialParse := fun k =>
            if k = 1024 * 1024 + 2 then ZipNode.arch .nil
            else ZipNode.malformed }
        { allowedExtensions := [".zip"], allowedMimeTypes := ["application/zip"],
          maxZipDepth := some 3 }
        1 "archive.zip".data (some "application/zip") (1024 * 1024 + 2) none
        none =
      ⟨.error (.validation invalidZipMsg), none, none⟩ :=
  ⟨by decide, by decide, by decide, by decide⟩


end FileSystem
